import Mathlib

/-!
# Verification of the Eduhub quiz bot core

Shallow embedding of the quiz-session scheduler and the fuzzy chapter
resolver of the Eduhubkmr bot, together with proofs of the specified
properties.

Strings are modelled as lists of characters (`Str`).  The JavaScript
`distance` import (the `fastest-levenshtein` package) computes the
standard Levenshtein edit distance, embedded here via Mathlib's
`levenshtein` with the default unit-cost structure.  JavaScript floating
point arithmetic on the small score constants is idealised as exact
rational arithmetic.
-/

set_option maxRecDepth 65536

/-- Strings of the model: lists of characters. -/
abbrev Str := List Char

/-- Coerce a Lean string literal into the model representation. -/
def str (s : String) : Str := s.data

/-- Source: `String.prototype.toLowerCase`, restricted to the ASCII case mapping
used by the chapter labels of the catalog. -/
def lowerStr (s : Str) : Str := s.map Char.toLower

/-- The Levenshtein edit distance computed by the `fastest-levenshtein`
package: unit cost for insert, delete and substitute. -/
def editDistance (a b : Str) : ℕ :=
  levenshtein Levenshtein.defaultCost a b

/-- Source: `getSimilarityScore` from `quizes.ts`:
`(maxLength - distance(a, b)) / maxLength`, and `1.0` when `maxLength`
is `0`. -/
def getSimilarityScore (a b : Str) : ℚ :=
  if max a.length b.length = 0 then 1
  else (((max a.length b.length : ℕ) : ℚ) - (editDistance a b : ℚ)) /
    ((max a.length b.length : ℕ) : ℚ)

theorem editDistance_nil_left (ys : Str) : editDistance [] ys = ys.length := by
  induction ys with
  | nil => rfl
  | cons y ys ih =>
    simp [editDistance, levenshtein_nil_cons] at ih ⊢
    omega

theorem editDistance_nil_right (xs : Str) : editDistance xs [] = xs.length := by
  induction xs with
  | nil => rfl
  | cons x xs ih =>
    simp [editDistance, levenshtein_cons_nil] at ih ⊢
    omega

/-- The Levenshtein distance never exceeds the length of the longer
string: one can always substitute the shorter string's positions and
insert the remainder. -/
theorem editDistance_le_max (a b : Str) :
    editDistance a b ≤ max a.length b.length := by
  induction a generalizing b with
  | nil => simp [editDistance_nil_left]
  | cons x xs ih =>
    cases b with
    | nil => simp [editDistance_nil_right]
    | cons y ys =>
      have h := ih ys
      have hmin :
          editDistance (x :: xs) (y :: ys) ≤
            (if x = y then 0 else 1) + editDistance xs ys := by
        simp only [editDistance, levenshtein_cons_cons,
          Levenshtein.defaultCost_substitute]
        exact le_trans (min_le_right _ _) (min_le_right _ _)
      have hif : (if x = y then 0 else 1) ≤ 1 := by
        by_cases hxy : x = y <;> simp [hxy]
      have := le_trans hmin (Nat.add_le_add hif h)
      simp only [List.length_cons]
      omega

theorem getSimilarityScore_nonneg (a b : Str) : 0 ≤ getSimilarityScore a b := by
  unfold getSimilarityScore
  by_cases h : max a.length b.length = 0
  · rw [if_pos h]
    norm_num
  · rw [if_neg h]
    apply div_nonneg
    · have hle : (editDistance a b : ℚ) ≤ ((max a.length b.length : ℕ) : ℚ) :=
        Nat.cast_le.mpr (editDistance_le_max a b)
      exact sub_nonneg.mpr hle
    · exact Nat.cast_nonneg _

theorem getSimilarityScore_le_one (a b : Str) : getSimilarityScore a b ≤ 1 := by
  unfold getSimilarityScore
  by_cases h : max a.length b.length = 0
  · rw [if_pos h]
  · rw [if_neg h]
    have hpos : (0 : ℚ) < ((max a.length b.length : ℕ) : ℚ) := by
      exact_mod_cast Nat.pos_of_ne_zero h
    rw [div_le_one hpos]
    have hd : (0 : ℚ) ≤ (editDistance a b : ℚ) := Nat.cast_nonneg _
    linarith

example : editDistance (str "wrld") (str "world") = 1 := by decide
example : getSimilarityScore (str "wrld") (str "world") = 4 / 5 := by
  have h : editDistance (str "wrld") (str "world") = 1 := by decide
  rw [getSimilarityScore, h]
  norm_num [str]

/-- Evaluation helper: compute a similarity score from the concrete
maximum length and edit distance. -/
theorem getSimilarityScore_eval {a b : Str} {m d : ℕ}
    (hm : max a.length b.length = m) (hd : editDistance a b = d)
    (hm0 : ¬ m = 0) :
    getSimilarityScore a b = ((m : ℚ) - (d : ℚ)) / (m : ℚ) := by
  rw [getSimilarityScore, hm, hd, if_neg hm0]

/-- ASCII whitespace, the fragment of the JavaScript `\s` character
class relevant to chapter labels. -/
def isWsChar (c : Char) : Bool :=
  decide (c.toNat ∈ ([9, 10, 11, 12, 13, 32] : List ℕ))

/-- Worker for `splitWs`: `inWs` records whether the previous character
belonged to a whitespace run, `acc` holds the reversed current token. -/
def splitWsGo : List Char → Bool → List Char → List (List Char)
  | [], _, acc => [acc.reverse]
  | c :: rest, inWs, acc =>
    if isWsChar c then
      if inWs then splitWsGo rest true acc
      else acc.reverse :: splitWsGo rest true []
    else splitWsGo rest false (c :: acc)

/-- Source: `String.prototype.split(/\s+/)`: split on maximal whitespace runs,
producing an empty leading (resp. trailing) token when the string
starts (resp. ends) with whitespace, and `[""]` on the empty string. -/
def splitWs (s : Str) : List Str := splitWsGo s false []

example : splitWs (str "living wrld") = [str "living", str "wrld"] := by decide
example : splitWs (str " a ") = [str "", str "a", str ""] := by decide
example : splitWs (str "") = [str ""] := by decide

/-- Source: `startsWithStr hay needle` holds when `needle` is a leading run of
`hay`. -/
def startsWithStr : Str → Str → Bool
  | _, [] => true
  | [], _ :: _ => false
  | c :: cs, d :: ds => c = d && startsWithStr cs ds

/-- Source: `String.prototype.includes`: `containsSub hay needle` is true when
`needle` occurs contiguously inside `hay`. -/
def containsSub : Str → Str → Bool
  | [], needle => needle.isEmpty
  | c :: rest, needle => startsWithStr (c :: rest) needle || containsSub rest needle

example : containsSub (str "cell structure") (str "cell") = true := by decide
example : containsSub (str "living world") (str "living wrld") = false := by decide

/-- The chapter words of the fuzzy tier:
`chapter.toLowerCase().split(/\s+/)`. -/
def chapterWordsOf (chapter : Str) : List Str := splitWs (lowerStr chapter)

/-- The query words of the fuzzy tier:
`query.toLowerCase().split(/\s+/).filter(w => w.length > 2)`. -/
def queryWordsOf (query : Str) : List Str :=
  (splitWs (lowerStr query)).filter fun w => decide (w.length > 2)

/-- The query words with at least one chapter word scoring above `0.7`
(`getSimilarityScore(qw, cw) > 0.7` in the source). -/
def matchingWordsOf (queryWords : List Str) (chapter : Str) : List Str :=
  queryWords.filter fun qw =>
    (chapterWordsOf chapter).any fun cw =>
      decide (7 / 10 < getSimilarityScore qw cw)

/-- Source: `overlapScore = matchingWords.length / max(queryWords.length, 1)`. -/
def overlapScoreOf (queryWords : List Str) (chapter : Str) : ℚ :=
  ((matchingWordsOf queryWords chapter).length : ℚ) /
    ((max queryWords.length 1 : ℕ) : ℚ)

/-- Source: `totalScore = overlapScore * 0.7 + fullSimilarity * 0.3`. -/
def scoreChapter (queryWords : List Str) (query chapter : Str) : ℚ :=
  overlapScoreOf queryWords chapter * (7 / 10) +
    getSimilarityScore (lowerStr chapter) (lowerStr query) * (3 / 10)

/-- One iteration of the fuzzy-tier loop: replace the best candidate
when the current chapter scores strictly higher. -/
def fuzzyStep (queryWords : List Str) (query : Str)
    (acc : Option Str × ℚ) (chapter : Str) : Option Str × ℚ :=
  if acc.2 < scoreChapter queryWords query chapter
  then (some chapter, scoreChapter queryWords query chapter)
  else acc

/-- Source: `findBestMatchingChapter` from `quizes.ts`: exact case-insensitive
tier, then substring containment in either direction, then the weighted
fuzzy tier with acceptance threshold `0.5`. -/
def findBestMatchingChapter (chapters : List Str) (query : Str) : Option Str :=
  if query.isEmpty || chapters.isEmpty then none
  else
    match chapters.find? fun ch => lowerStr ch == lowerStr query with
    | some exactMatch => some exactMatch
    | none =>
      match chapters.find? fun ch =>
          containsSub (lowerStr ch) (lowerStr query) ||
          containsSub (lowerStr query) (lowerStr ch) with
      | some containsMatch => some containsMatch
      | none =>
        (chapters.foldl (fuzzyStep (queryWordsOf query) query)
          (none, 1 / 2)).1

/-- C8: the similarity scorer returns exactly
`(max(len a, len b) - editDistance a b) / max(len a, len b)`, returns
`1.0` when both strings are empty, and always lies in `[0, 1]`. -/
theorem getSimilarityScore_spec (a b : Str) :
    getSimilarityScore a b =
      (if a.length = 0 ∧ b.length = 0 then 1
       else (((max a.length b.length : ℕ) : ℚ) - (editDistance a b : ℚ)) /
         ((max a.length b.length : ℕ) : ℚ)) ∧
    0 ≤ getSimilarityScore a b ∧ getSimilarityScore a b ≤ 1 := by
  refine ⟨?_, getSimilarityScore_nonneg a b, getSimilarityScore_le_one a b⟩
  rw [getSimilarityScore]
  by_cases h : max a.length b.length = 0
  · rw [if_pos h, if_pos (show a.length = 0 ∧ b.length = 0 by omega)]
  · rw [if_neg h, if_neg (show ¬(a.length = 0 ∧ b.length = 0) by omega)]

/-- C7: resolving `"living wrld"` against
`["Cell Structure", "Living World", "Genetics"]` returns
`"Living World"`: neither the exact nor the substring tier fires, and in
the fuzzy tier `"Living World"` attains `overlapScore` 1 (both query
words score above `0.7` against one of its words) and a combined score
above the `0.5` acceptance threshold. -/
theorem findBestMatchingChapter_living_wrld :
    ([str "Cell Structure", str "Living World", str "Genetics"].find? fun ch =>
        lowerStr ch == lowerStr (str "living wrld")) = none ∧
    ([str "Cell Structure", str "Living World", str "Genetics"].find? fun ch =>
        containsSub (lowerStr ch) (lowerStr (str "living wrld")) ||
        containsSub (lowerStr (str "living wrld")) (lowerStr ch)) = none ∧
    overlapScoreOf (queryWordsOf (str "living wrld")) (str "Living World") = 1 ∧
    scoreChapter (queryWordsOf (str "living wrld")) (str "living wrld")
      (str "Living World") > 1 / 2 ∧
    findBestMatchingChapter [str "Cell Structure", str "Living World", str "Genetics"]
      (str "living wrld") = some (str "Living World") := by
  have hQW : queryWordsOf (str "living wrld") = [str "living", str "wrld"] := by
    decide
  have hcw1 : chapterWordsOf (str "Cell Structure") = [str "cell", str "structure"] := by
    decide
  have hcw2 : chapterWordsOf (str "Living World") = [str "living", str "world"] := by
    decide
  have hcw3 : chapterWordsOf (str "Genetics") = [str "genetics"] := by
    decide
  have hl1 : lowerStr (str "Cell Structure") = str "cell structure" := by decide
  have hl2 : lowerStr (str "Living World") = str "living world" := by decide
  have hl3 : lowerStr (str "Genetics") = str "genetics" := by decide
  have hlq : lowerStr (str "living wrld") = str "living wrld" := by decide
  have v_lc : getSimilarityScore (str "living") (str "cell") = ((6 : ℚ) - 6) / 6 :=
    getSimilarityScore_eval (by decide) (by decide) (by decide)
  have v_ls : getSimilarityScore (str "living") (str "structure") = ((9 : ℚ) - 9) / 9 :=
    getSimilarityScore_eval (by decide) (by decide) (by decide)
  have v_wc : getSimilarityScore (str "wrld") (str "cell") = ((4 : ℚ) - 3) / 4 :=
    getSimilarityScore_eval (by decide) (by decide) (by decide)
  have v_ws : getSimilarityScore (str "wrld") (str "structure") = ((9 : ℚ) - 8) / 9 :=
    getSimilarityScore_eval (by decide) (by decide) (by decide)
  have v_ll : getSimilarityScore (str "living") (str "living") = ((6 : ℚ) - 0) / 6 :=
    getSimilarityScore_eval (by decide) (by decide) (by decide)
  have v_wl : getSimilarityScore (str "wrld") (str "living") = ((6 : ℚ) - 6) / 6 :=
    getSimilarityScore_eval (by decide) (by decide) (by decide)
  have v_ww : getSimilarityScore (str "wrld") (str "world") = ((5 : ℚ) - 1) / 5 :=
    getSimilarityScore_eval (by decide) (by decide) (by decide)
  have v_lg : getSimilarityScore (str "living") (str "genetics") = ((8 : ℚ) - 7) / 8 :=
    getSimilarityScore_eval (by decide) (by decide) (by decide)
  have v_wg : getSimilarityScore (str "wrld") (str "genetics") = ((8 : ℚ) - 8) / 8 :=
    getSimilarityScore_eval (by decide) (by decide) (by decide)
  have v_f1 : getSimilarityScore (str "cell structure") (str "living wrld") =
      ((14 : ℚ) - 13) / 14 :=
    getSimilarityScore_eval (by decide) (by decide) (by decide)
  have v_f2 : getSimilarityScore (str "living world") (str "living wrld") =
      ((12 : ℚ) - 1) / 12 :=
    getSimilarityScore_eval (by decide) (by decide) (by decide)
  have v_f3 : getSimilarityScore (str "genetics") (str "living wrld") =
      ((11 : ℚ) - 10) / 11 :=
    getSimilarityScore_eval (by decide) (by decide) (by decide)
  have b_lc : decide (7 / 10 < getSimilarityScore (str "living") (str "cell")) = false :=
    decide_eq_false (by rw [v_lc]; norm_num)
  have b_ls : decide (7 / 10 < getSimilarityScore (str "living") (str "structure")) = false :=
    decide_eq_false (by rw [v_ls]; norm_num)
  have b_wc : decide (7 / 10 < getSimilarityScore (str "wrld") (str "cell")) = false :=
    decide_eq_false (by rw [v_wc]; norm_num)
  have b_ws : decide (7 / 10 < getSimilarityScore (str "wrld") (str "structure")) = false :=
    decide_eq_false (by rw [v_ws]; norm_num)
  have b_ll : decide (7 / 10 < getSimilarityScore (str "living") (str "living")) = true :=
    decide_eq_true (by rw [v_ll]; norm_num)
  have b_wl : decide (7 / 10 < getSimilarityScore (str "wrld") (str "living")) = false :=
    decide_eq_false (by rw [v_wl]; norm_num)
  have b_ww : decide (7 / 10 < getSimilarityScore (str "wrld") (str "world")) = true :=
    decide_eq_true (by rw [v_ww]; norm_num)
  have b_lg : decide (7 / 10 < getSimilarityScore (str "living") (str "genetics")) = false :=
    decide_eq_false (by rw [v_lg]; norm_num)
  have b_wg : decide (7 / 10 < getSimilarityScore (str "wrld") (str "genetics")) = false :=
    decide_eq_false (by rw [v_wg]; norm_num)
  have m1 : matchingWordsOf [str "living", str "wrld"] (str "Cell Structure") = [] := by
    rw [matchingWordsOf, hcw1]
    simp [b_lc, b_ls, b_wc, b_ws]
  have m2 : matchingWordsOf [str "living", str "wrld"] (str "Living World") =
      [str "living", str "wrld"] := by
    rw [matchingWordsOf, hcw2]
    simp [b_ll, b_wl, b_ww]
  have m3 : matchingWordsOf [str "living", str "wrld"] (str "Genetics") = [] := by
    rw [matchingWordsOf, hcw3]
    simp [b_lg, b_wg]
  have o1 : overlapScoreOf [str "living", str "wrld"] (str "Cell Structure") = 0 := by
    rw [overlapScoreOf, m1]
    norm_num
  have o2 : overlapScoreOf [str "living", str "wrld"] (str "Living World") = 1 := by
    rw [overlapScoreOf, m2]
    norm_num
  have o3 : overlapScoreOf [str "living", str "wrld"] (str "Genetics") = 0 := by
    rw [overlapScoreOf, m3]
    norm_num
  have s1 : scoreChapter [str "living", str "wrld"] (str "living wrld")
      (str "Cell Structure") = 3 / 140 := by
    rw [scoreChapter, o1, hl1, hlq, v_f1]
    norm_num
  have s2 : scoreChapter [str "living", str "wrld"] (str "living wrld")
      (str "Living World") = 39 / 40 := by
    rw [scoreChapter, o2, hl2, hlq, v_f2]
    norm_num
  have s3 : scoreChapter [str "living", str "wrld"] (str "living wrld")
      (str "Genetics") = 3 / 110 := by
    rw [scoreChapter, o3, hl3, hlq, v_f3]
    norm_num
  have hfind1 : ([str "Cell Structure", str "Living World", str "Genetics"].find? fun ch =>
      lowerStr ch == lowerStr (str "living wrld")) = none := by decide
  have hfind2 : ([str "Cell Structure", str "Living World", str "Genetics"].find? fun ch =>
      containsSub (lowerStr ch) (lowerStr (str "living wrld")) ||
      containsSub (lowerStr (str "living wrld")) (lowerStr ch)) = none := by decide
  have f1 : fuzzyStep [str "living", str "wrld"] (str "living wrld") (none, 1 / 2)
      (str "Cell Structure") = (none, 1 / 2) := by
    rw [fuzzyStep, s1, if_neg (by norm_num)]
  have f2 : fuzzyStep [str "living", str "wrld"] (str "living wrld") (none, 1 / 2)
      (str "Living World") = (some (str "Living World"), 39 / 40) := by
    rw [fuzzyStep, s2, if_pos (by norm_num)]
  have f3 : fuzzyStep [str "living", str "wrld"] (str "living wrld")
      (some (str "Living World"), 39 / 40) (str "Genetics") =
      (some (str "Living World"), 39 / 40) := by
    rw [fuzzyStep, s3, if_neg (by norm_num)]
  refine ⟨hfind1, hfind2, ?_, ?_, ?_⟩
  · rw [hQW]
    exact o2
  · rw [hQW, s2]
    norm_num
  · rw [findBestMatchingChapter, hQW, hfind1, hfind2]
    rw [if_neg (show ¬(((str "living wrld").isEmpty ||
        List.isEmpty [str "Cell Structure", str "Living World", str "Genetics"]) = true)
      from by decide)]
    show ([str "Cell Structure", str "Living World", str "Genetics"].foldl
        (fuzzyStep [str "living", str "wrld"] (str "living wrld")) (none, 1 / 2)).1 =
      some (str "Living World")
    rw [List.foldl_cons, f1, List.foldl_cons, f2, List.foldl_cons, f3, List.foldl_nil]

/-- The fuzzy-tier fold either keeps the accumulator's candidate or
returns one of the folded chapters. -/
theorem foldl_fuzzyStep_fst (qws : List Str) (q : Str) :
    ∀ (chs : List Str) (acc : Option Str × ℚ),
      (chs.foldl (fuzzyStep qws q) acc).1 = acc.1 ∨
        ∃ ch ∈ chs, (chs.foldl (fuzzyStep qws q) acc).1 = some ch := by
  intro chs
  induction chs with
  | nil => intro acc; exact Or.inl rfl
  | cons c cs ih =>
    intro acc
    rw [List.foldl_cons]
    rcases ih (fuzzyStep qws q acc c) with h | ⟨ch, hch, h⟩
    · rw [h, fuzzyStep]
      by_cases hc : acc.2 < scoreChapter qws q c
      · rw [if_pos hc]
        exact Or.inr ⟨c, List.mem_cons_self c cs, rfl⟩
      · rw [if_neg hc]
        exact Or.inl rfl
    · exact Or.inr ⟨ch, List.mem_cons_of_mem c hch, h⟩

/-- C9: whenever the chapter resolver returns a result, that result is
an element of the candidate list, verbatim (original casing). -/
theorem findBestMatchingChapter_mem (chapters : List Str) (query : Str) (r : Str)
    (h : findBestMatchingChapter chapters query = some r) : r ∈ chapters := by
  rw [findBestMatchingChapter] at h
  by_cases h0 : (query.isEmpty || chapters.isEmpty) = true
  · rw [if_pos h0] at h
    exact absurd h (by simp)
  · rw [if_neg h0] at h
    cases hf1 : chapters.find? (fun ch => lowerStr ch == lowerStr query) with
    | some e =>
      simp only [hf1, Option.some.injEq] at h
      exact h ▸ List.mem_of_find?_eq_some hf1
    | none =>
      simp only [hf1] at h
      cases hf2 : chapters.find? (fun ch =>
          containsSub (lowerStr ch) (lowerStr query) ||
          containsSub (lowerStr query) (lowerStr ch)) with
      | some e =>
        simp only [hf2, Option.some.injEq] at h
        exact h ▸ List.mem_of_find?_eq_some hf2
      | none =>
        simp only [hf2] at h
        rcases foldl_fuzzyStep_fst (queryWordsOf query) query chapters (none, 1 / 2) with
          hl | ⟨ch, hm, he⟩
        · rw [hl] at h
          exact absurd h (by simp)
        · rw [he] at h
          exact (Option.some.injEq ch r ▸ h : ch = r) ▸ hm

/-- C9 witness. -/
theorem findBestMatchingChapter_mem_witness :
    findBestMatchingChapter [str "abc"] (str "abc") = some (str "abc") ∧
      str "abc" ∈ [str "abc"] :=
  ⟨by decide, findBestMatchingChapter_mem [str "abc"] (str "abc") (str "abc") (by decide)⟩

/-- Lemma: `Char.toLower` of a valid shifted codepoint: the underlying
codepoint of `Char.ofNat (n + 32)` for `n ≤ 90`. -/
theorem toNat_ofNat_of_lt {n : ℕ} (h : n < 55296) : (Char.ofNat n).toNat = n := by
  have hv : n.isValidChar := Or.inl h
  rw [Char.ofNat, dif_pos hv]
  rfl

/-- Lowercasing preserves whether a character is whitespace. -/
theorem isWsChar_toLower (c : Char) : isWsChar (Char.toLower c) = isWsChar c := by
  rw [Char.toLower]
  by_cases h : c.toNat ≥ 65 ∧ c.toNat ≤ 90
  · rw [if_pos h]
    have h1 : (Char.ofNat (c.toNat + 32)).toNat = c.toNat + 32 :=
      toNat_ofNat_of_lt (by omega)
    rw [isWsChar, isWsChar, h1]
    apply decide_eq_decide.mpr
    simp only [List.mem_cons, List.not_mem_nil, or_false]
    omega
  · rw [if_neg h]

/-- Lemma: `splitWs` commutes with character-wise lowercasing: lowercasing
never changes word boundaries. -/
theorem splitWsGo_map_toLower :
    ∀ (s : List Char) (inWs : Bool) (acc : List Char),
      splitWsGo (s.map Char.toLower) inWs (acc.map Char.toLower) =
        (splitWsGo s inWs acc).map (List.map Char.toLower) := by
  intro s
  induction s with
  | nil =>
    intro inWs acc
    simp [splitWsGo]
  | cons c cs ih =>
    intro inWs acc
    simp only [List.map_cons, splitWsGo, isWsChar_toLower c]
    by_cases hc : isWsChar c
    · rw [if_pos hc, if_pos hc]
      cases inWs with
      | true =>
        rw [if_pos rfl, if_pos rfl]
        exact ih true acc
      | false =>
        rw [if_neg (by simp), if_neg (by simp)]
        rw [List.map_cons, ← List.map_reverse]
        exact congrArg _ (by simpa using ih true [])
    · rw [if_neg hc, if_neg hc]
      simpa using ih false (c :: acc)

/-- Lemma: `splitWs` on the lowercased string gives the lowercased words. -/
theorem splitWs_lowerStr (s : Str) :
    splitWs (lowerStr s) = (splitWs s).map lowerStr := by
  have h := splitWsGo_map_toLower s false []
  simpa [splitWs, lowerStr] using h

/-- When the accumulator's best score is never beaten, the fuzzy fold
leaves the accumulator untouched. -/
theorem foldl_fuzzyStep_const (qws : List Str) (q : Str) :
    ∀ (chs : List Str) (b : ℚ),
      (∀ ch ∈ chs, ¬ b < scoreChapter qws q ch) →
      chs.foldl (fuzzyStep qws q) (none, b) = (none, b) := by
  intro chs
  induction chs with
  | nil => intro b _; rfl
  | cons c cs ih =>
    intro b hb
    rw [List.foldl_cons]
    have hstep : fuzzyStep qws q (none, b) c = (none, b) := by
      rw [fuzzyStep, if_neg (hb c (List.mem_cons_self c cs))]
    rw [hstep]
    exact ih b fun ch hch => hb ch (List.mem_cons_of_mem c hch)

/-- With no query words, a chapter's combined score is at most `0.3`. -/
theorem scoreChapter_le_of_no_queryWords (q ch : Str) :
    scoreChapter [] q ch ≤ 3 / 10 := by
  have hm : matchingWordsOf [] ch = [] := rfl
  have ho : overlapScoreOf [] ch = 0 := by
    rw [overlapScoreOf, hm]
    norm_num
  rw [scoreChapter, ho]
  have h1 := getSimilarityScore_le_one (lowerStr ch) (lowerStr q)
  nlinarith [getSimilarityScore_nonneg (lowerStr ch) (lowerStr q)]

/-- C10: a non-empty query against a non-empty candidate list, whose
whitespace-delimited words all have length at most two, resolves to no
match when the exact and substring tiers both fail: the tokenized query
is empty, the overlap score is `0`, and every combined score is at most
`0.3`, below the `0.5` acceptance threshold. -/
theorem findBestMatchingChapter_short_words (chapters : List Str) (query : Str)
    (hq : query ≠ []) (hc : chapters ≠ [])
    (hshort : ∀ w ∈ splitWs query, w.length ≤ 2)
    (hexact : ∀ ch ∈ chapters, lowerStr ch ≠ lowerStr query)
    (hsub : ∀ ch ∈ chapters,
      containsSub (lowerStr ch) (lowerStr query) = false ∧
      containsSub (lowerStr query) (lowerStr ch) = false) :
    queryWordsOf query = [] ∧ findBestMatchingChapter chapters query = none := by
  have hqw : queryWordsOf query = [] := by
    rw [queryWordsOf, splitWs_lowerStr]
    rw [List.filter_eq_nil_iff]
    intro w hw
    rcases List.mem_map.mp hw with ⟨w0, hw0, rfl⟩
    have hlen : (lowerStr w0).length = w0.length := List.length_map w0 Char.toLower
    have := hshort w0 hw0
    simp only [decide_eq_true_eq]
    omega
  refine ⟨hqw, ?_⟩
  have h0 : ¬ ((query.isEmpty || chapters.isEmpty) = true) := by
    cases query with
    | nil => exact absurd rfl hq
    | cons a as =>
      cases chapters with
      | nil => exact absurd rfl hc
      | cons b bs => simp [List.isEmpty]
  have hf1 : chapters.find? (fun ch => lowerStr ch == lowerStr query) = none := by
    rw [List.find?_eq_none]
    intro ch hch
    simp only [beq_iff_eq]
    exact hexact ch hch
  have hf2 : chapters.find? (fun ch =>
      containsSub (lowerStr ch) (lowerStr query) ||
      containsSub (lowerStr query) (lowerStr ch)) = none := by
    rw [List.find?_eq_none]
    intro ch hch
    rcases hsub ch hch with ⟨h1, h2⟩
    simp [h1, h2]
  rw [findBestMatchingChapter, if_neg h0]
  simp only [hf1, hf2, hqw]
  rw [foldl_fuzzyStep_const [] query chapters (1 / 2) ?_]
  · intro ch _
    have := scoreChapter_le_of_no_queryWords query ch
    intro hlt
    linarith

/-- C10 witness: query `"zz"` against `["abc"]`. -/
theorem findBestMatchingChapter_short_words_witness :
    queryWordsOf (str "zz") = [] ∧
      findBestMatchingChapter [str "abc"] (str "zz") = none :=
  findBestMatchingChapter_short_words [str "abc"] (str "zz")
    (by decide) (by decide) (by decide) (by decide) (by decide)

/-!
## Session scheduler

Model of `startQuizSession` / `stopQuizSession` / `startTimer` /
`stopTimer` and the `/stop` handler of `quizes.ts`.  The `quizSessions`
map is an association list, and the runtime's armed interval timers are
modelled explicitly as a list of `Timer` records with fresh numeric
handles, so that cancelled timers and dangling timers are observable.
Each JavaScript callback runs to completion (single-threaded event
loop), so every entry point is one atomic transition.
-/

abbrev ChatId := ℕ

/-- A catalog question: the payload forwarded by `sendQuestion`. -/
structure Question where
  text : Str
  optionA : Str
  optionB : Str
  optionC : Str
  optionD : Str
  correctOption : Str
  explanation : Option Str
  image : Option Str
deriving DecidableEq

instance : Inhabited Question := ⟨⟨[], [], [], [], [], [], none, none⟩⟩

/-- The two interval kinds of a session: the cadence (question)
interval and the one-second countdown interval. -/
inductive TimerKind
  | dispatch
  | countdown
deriving DecidableEq

/-- An armed repeating timer of the runtime. -/
structure Timer where
  id : ℕ
  chat : ChatId
  kind : TimerKind
deriving DecidableEq

/-- The `QuizSession` record of `quizes.ts`: interval handles, the
countdown status-message handle (modelled as a presence flag), the
selected questions and the current index. -/
structure QuizSession where
  questionIntervalId : Option ℕ
  timerIntervalId : Option ℕ
  timerMessageId : Bool
  questions : List Question
  currentIndex : ℕ
deriving DecidableEq

/-- Global scheduler state: the `quizSessions` map, the armed timers of
the runtime, and a fresh-handle counter. -/
structure BotState where
  sessions : List (ChatId × QuizSession)
  live : List Timer
  nextId : ℕ
deriving DecidableEq

def initState : BotState := ⟨[], [], 0⟩

/-- Keyed record lookup (`map.get(chatId)` / `record[chatId]`). -/
def lookupS {β : Type} : List (ChatId × β) → ChatId → Option β
  | [], _ => none
  | e :: es, c => if e.1 = c then some e.2 else lookupS es c

/-- Keyed record removal (`map.delete(chatId)` / `delete record[chatId]`). -/
def eraseS {β : Type} : List (ChatId × β) → ChatId → List (ChatId × β)
  | [], _ => []
  | e :: es, c => if e.1 = c then eraseS es c else e :: eraseS es c

/-- Keyed record update (`map.set(chatId, v)` / `record[chatId] = v`). -/
def setS {β : Type} (l : List (ChatId × β)) (c : ChatId) (s : β) :
    List (ChatId × β) :=
  eraseS l c ++ [(c, s)]

/-- Source: `clearInterval(handle)`: disarm the timer with the given handle. -/
def clearTimer (live : List Timer) : Option ℕ → List Timer
  | none => live
  | some i => live.filter fun t => !(t.id == i)

/-- Observable outputs of one scheduler transition. -/
inductive Ev
  | dispatched (q : Question)
  | repliedQuizStopped
  | repliedNothingToStop
  | repliedNoQuestions
  | repliedStarted
  | repliedCompleted
  | repliedSendFailed
deriving DecidableEq

/-- Source: `stopTimer(session)`: clear the countdown interval and delete the
countdown status message (deletion failures are swallowed). -/
def stopTimerFn (live : List Timer) (s : QuizSession) : List Timer × QuizSession :=
  (clearTimer live s.timerIntervalId,
   { s with timerIntervalId := none, timerMessageId := false })

/-- Source: `stopQuizSession(chatId)`: when a session is registered, clear its
cadence interval, stop its countdown, drop the map entry and notify the
chat; otherwise do nothing. -/
def stopQuizSessionFn (st : BotState) (c : ChatId) : BotState × List Ev :=
  match lookupS st.sessions c with
  | none => (st, [])
  | some s =>
    let live1 := clearTimer st.live s.questionIntervalId
    let live2 := (stopTimerFn live1 s).1
    (⟨eraseS st.sessions c, live2, st.nextId⟩, [.repliedQuizStopped])

/-- Source: `startTimer(session)`: delete any previous countdown message,
clear any previous countdown interval, send a fresh status message and
arm a fresh one-second interval. -/
def startTimerFn (st : BotState) (c : ChatId) (s : QuizSession) :
    BotState × QuizSession :=
  (⟨st.sessions, clearTimer st.live s.timerIntervalId ++ [⟨st.nextId, c, .countdown⟩],
    st.nextId + 1⟩,
   { s with timerIntervalId := some st.nextId, timerMessageId := true })

/-- Source: `startQuizSession(ctx, questions, count)`: stop any existing
session of the chat, select `min count questions.length` questions
from the (externally shuffled) list, dispatch the first synchronously,
open the countdown when more remain, arm the repeating cadence
interval and register the session.  `sendOk` is the outcome of the
first dispatch; on failure the chat is notified and the (not yet
registered) session is stopped. -/
def startQuizSessionFn (st : BotState) (c : ChatId) (shuffled : List Question)
    (count : ℕ) (sendOk : Bool) : BotState × List Ev :=
  let r := stopQuizSessionFn st c
  let st1 := r.1
  match shuffled.take (min count shuffled.length) with
  | [] => (st1, r.2 ++ [.repliedNoQuestions])
  | q0 :: rest =>
    if sendOk then
      let s0 : QuizSession := ⟨none, none, false, q0 :: rest, 1⟩
      let r2 := if 1 < (q0 :: rest).length then startTimerFn st1 c s0 else (st1, s0)
      let st2 := r2.1
      let s2 := { r2.2 with questionIntervalId := some st2.nextId }
      (⟨setS st2.sessions c s2, st2.live ++ [⟨st2.nextId, c, .dispatch⟩], st2.nextId + 1⟩,
       r.2 ++ [.dispatched q0, .repliedStarted])
    else
      let r2 := stopQuizSessionFn st1 c
      (r2.1, r.2 ++ [.repliedSendFailed] ++ r2.2)

/-- One fire of the cadence interval with handle `i` for chat `c`.  A
cleared interval never fires.  When the index has reached the end of
the selection the session completes; otherwise the next question is
dispatched (`sendOk` its outcome), the index advances, and the
countdown is restarted (or stopped after the last question). -/
def questionTickFn (st : BotState) (c : ChatId) (i : ℕ) (sendOk : Bool) :
    BotState × List Ev :=
  if (⟨i, c, .dispatch⟩ : Timer) ∈ st.live then
    match lookupS st.sessions c with
    | none => (st, [])
    | some s =>
      if s.questions.length ≤ s.currentIndex then
        let live1 := (stopTimerFn st.live s).1
        let s1 := (stopTimerFn st.live s).2
        let st1 : BotState := ⟨setS st.sessions c s1, live1, st.nextId⟩
        let r2 := stopQuizSessionFn st1 c
        (r2.1, [.repliedCompleted] ++ r2.2)
      else if sendOk then
        let q := s.questions.getD s.currentIndex default
        let s1 := { s with currentIndex := s.currentIndex + 1 }
        if s1.currentIndex < s.questions.length then
          let st1 : BotState := ⟨setS st.sessions c s1, st.live, st.nextId⟩
          let r2 := startTimerFn st1 c s1
          (⟨setS r2.1.sessions c r2.2, r2.1.live, r2.1.nextId⟩, [.dispatched q])
        else
          let live1 := (stopTimerFn st.live s1).1
          let s2 := (stopTimerFn st.live s1).2
          (⟨setS st.sessions c s2, live1, st.nextId⟩, [.dispatched q])
      else
        let live1 := (stopTimerFn st.live s).1
        let s1 := (stopTimerFn st.live s).2
        let st1 : BotState := ⟨setS st.sessions c s1, live1, st.nextId⟩
        let r2 := stopQuizSessionFn st1 c
        (r2.1, [.repliedSendFailed] ++ r2.2)
  else (st, [])

/-- One fire of the countdown interval with handle `i` for chat `c`,
at session level: when the message edit of a counting tick fails
(`editFail`), the callback clears the countdown interval and drops the
message handle; otherwise the scheduler state is unchanged. -/
def countdownTickFn (st : BotState) (c : ChatId) (i : ℕ) (editFail : Bool) :
    BotState :=
  if (⟨i, c, .countdown⟩ : Timer) ∈ st.live ∧ editFail = true then
    match lookupS st.sessions c with
    | none => ⟨st.sessions, clearTimer st.live (some i), st.nextId⟩
    | some s =>
      if s.timerIntervalId = some i then
        ⟨setS st.sessions c { s with timerIntervalId := none, timerMessageId := false },
         clearTimer st.live (some i), st.nextId⟩
      else ⟨st.sessions, clearTimer st.live (some i), st.nextId⟩
  else st

/-- The `/stop` command (also the exported `stopQuiz` handler): stop
the chat's session when one exists, otherwise report that there is
nothing to stop.  Total: it never throws. -/
def stopCommandFn (st : BotState) (c : ChatId) : BotState × List Ev :=
  if (lookupS st.sessions c).isSome then stopQuizSessionFn st c
  else (st, [.repliedNothingToStop])

/-- One event-loop callback of the scheduler. -/
inductive SchedStep : BotState → BotState → Prop
  | start (st : BotState) (c : ChatId) (qs : List Question) (count : ℕ) (sendOk : Bool) :
      SchedStep st (startQuizSessionFn st c qs count sendOk).1
  | tick (st : BotState) (c : ChatId) (i : ℕ) (sendOk : Bool) :
      SchedStep st (questionTickFn st c i sendOk).1
  | cdTick (st : BotState) (c : ChatId) (i : ℕ) (editFail : Bool) :
      SchedStep st (countdownTickFn st c i editFail)
  | stopCmd (st : BotState) (c : ChatId) :
      SchedStep st (stopCommandFn st c).1

/-- States reachable from the initial (empty) scheduler state. -/
inductive SchedReachable : BotState → Prop
  | init : SchedReachable initState
  | step {st st' : BotState} :
      SchedReachable st → SchedStep st st' → SchedReachable st'

/-- A live timer is owned by the registered session of its chat, through
the matching handle field. -/
def ownsTimer (st : BotState) (t : Timer) : Prop :=
  ∃ s, lookupS st.sessions t.chat = some s ∧
    (t.kind = .dispatch → s.questionIntervalId = some t.id) ∧
    (t.kind = .countdown → s.timerIntervalId = some t.id)

/-- Well-formedness of a scheduler state: armed timers have distinct
handles, all handles are below the fresh counter, every armed timer is
owned by its chat's registered session, and the session map has at most
one entry per chat. -/
structure WF (st : BotState) : Prop where
  nodupIds : (st.live.map Timer.id).Nodup
  freshLive : ∀ t ∈ st.live, t.id < st.nextId
  owned : ∀ t ∈ st.live, ownsTimer st t
  freshSession : ∀ e ∈ st.sessions,
    (∀ i, e.2.questionIntervalId = some i → i < st.nextId) ∧
    (∀ i, e.2.timerIntervalId = some i → i < st.nextId)
  atMostOne : ∀ c, (st.sessions.filter fun e => e.1 == c).length ≤ 1

theorem eraseS_sublist {β : Type} (l : List (ChatId × β)) (c : ChatId) :
    (eraseS l c).Sublist l := by
  induction l with
  | nil => exact List.Sublist.refl _
  | cons e es ih =>
    rw [eraseS]
    by_cases he : e.1 = c
    · rw [if_pos he]
      exact ih.cons e
    · rw [if_neg he]
      exact ih.cons₂ e

theorem mem_eraseS {β : Type} {l : List (ChatId × β)} {c : ChatId}
    {e : ChatId × β} : e ∈ eraseS l c ↔ e ∈ l ∧ e.1 ≠ c := by
  induction l with
  | nil => simp [eraseS]
  | cons a as ih =>
    rw [eraseS]
    by_cases ha : a.1 = c
    · rw [if_pos ha, ih]
      constructor
      · exact fun ⟨h1, h2⟩ => ⟨List.mem_cons_of_mem a h1, h2⟩
      · rintro ⟨h1, h2⟩
        cases List.mem_cons.mp h1 with
        | inl h => exact absurd (h ▸ ha) h2
        | inr h => exact ⟨h, h2⟩
    · rw [if_neg ha]
      constructor
      · intro hmem
        cases List.mem_cons.mp hmem with
        | inl h => exact ⟨h ▸ List.mem_cons_self a as, h ▸ ha⟩
        | inr h =>
          rcases ih.mp h with ⟨h1, h2⟩
          exact ⟨List.mem_cons_of_mem a h1, h2⟩
      · rintro ⟨h1, h2⟩
        cases List.mem_cons.mp h1 with
        | inl h => exact h ▸ List.mem_cons_self a (eraseS as c)
        | inr h => exact List.mem_cons_of_mem a (ih.mpr ⟨h, h2⟩)

theorem lookupS_eq_none_iff {β : Type} {l : List (ChatId × β)} {c : ChatId} :
    lookupS l c = none ↔ ∀ e ∈ l, e.1 ≠ c := by
  induction l with
  | nil => simp [lookupS]
  | cons e es ih =>
    rw [lookupS]
    by_cases he : e.1 = c
    · simp [he]
    · rw [if_neg he, ih]
      constructor
      · intro h a ha
        cases List.mem_cons.mp ha with
        | inl hh => exact hh ▸ he
        | inr hh => exact h a hh
      · intro h a ha
        exact h a (List.mem_cons_of_mem e ha)

theorem lookupS_eraseS_self {β : Type} (l : List (ChatId × β)) (c : ChatId) :
    lookupS (eraseS l c) c = none :=
  lookupS_eq_none_iff.mpr fun _ he => (mem_eraseS.mp he).2

theorem lookupS_eraseS_ne {β : Type} (l : List (ChatId × β)) {c c' : ChatId}
    (h : c' ≠ c) : lookupS (eraseS l c) c' = lookupS l c' := by
  induction l with
  | nil => rfl
  | cons e es ih =>
    rw [eraseS]
    by_cases he : e.1 = c
    · rw [if_pos he, lookupS, if_neg (fun hh : e.1 = c' => h (hh ▸ he ▸ rfl))]
      exact ih
    · rw [if_neg he, lookupS, lookupS]
      by_cases he' : e.1 = c'
      · rw [if_pos he', if_pos he']
      · rw [if_neg he', if_neg he']
        exact ih

theorem lookupS_append_right {β : Type} (l₁ l₂ : List (ChatId × β)) (c : ChatId)
    (h : ∀ e ∈ l₁, e.1 ≠ c) : lookupS (l₁ ++ l₂) c = lookupS l₂ c := by
  induction l₁ with
  | nil => rfl
  | cons e es ih =>
    rw [List.cons_append, lookupS, if_neg (h e (List.mem_cons_self e es))]
    exact ih fun a ha => h a (List.mem_cons_of_mem e ha)

theorem lookupS_append_left {β : Type} {l₁ : List (ChatId × β)}
    (l₂ : List (ChatId × β)) {c : ChatId} {v : β}
    (h : lookupS l₁ c = some v) : lookupS (l₁ ++ l₂) c = some v := by
  induction l₁ with
  | nil => exact absurd h (by simp [lookupS])
  | cons e es ih =>
    rw [List.cons_append, lookupS]
    rw [lookupS] at h
    by_cases he : e.1 = c
    · rw [if_pos he] at h ⊢
      exact h
    · rw [if_neg he] at h ⊢
      exact ih h

theorem lookupS_setS_self {β : Type} (l : List (ChatId × β)) (c : ChatId)
    (s : β) : lookupS (setS l c s) c = some s := by
  rw [setS, lookupS_append_right _ _ _ fun e he => (mem_eraseS.mp he).2]
  rw [lookupS, if_pos rfl]

theorem lookupS_setS_ne {β : Type} (l : List (ChatId × β)) {c c' : ChatId}
    (s : β) (h : c' ≠ c) :
    lookupS (setS l c s) c' = lookupS l c' := by
  rw [setS]
  cases hfl : lookupS (eraseS l c) c' with
  | some v =>
    rw [lookupS_append_left _ hfl, ← lookupS_eraseS_ne l h, hfl]
  | none =>
    rw [lookupS_append_right _ _ _ (lookupS_eq_none_iff.mp hfl)]
    rw [lookupS, if_neg (fun hh : c = c' => h hh.symm), lookupS]
    rw [← lookupS_eraseS_ne l h, hfl]

theorem clearTimer_sublist (live : List Timer) (o : Option ℕ) :
    (clearTimer live o).Sublist live := by
  cases o with
  | none => exact List.Sublist.refl live
  | some i => exact List.filter_sublist live

theorem mem_clearTimer_some {live : List Timer} {t : Timer} {i : ℕ} :
    t ∈ clearTimer live (some i) ↔ t ∈ live ∧ t.id ≠ i := by
  simp [clearTimer, List.mem_filter]

theorem mem_of_mem_clearTimer {live : List Timer} {t : Timer} {o : Option ℕ}
    (h : t ∈ clearTimer live o) : t ∈ live :=
  (clearTimer_sublist live o).mem h

theorem filter_eraseS_le {β : Type} (l : List (ChatId × β)) (c c' : ChatId) :
    ((eraseS l c).filter fun e => e.1 == c').length ≤
      (l.filter fun e => e.1 == c').length :=
  ((eraseS_sublist l c).filter _).length_le

theorem filter_setS_self {β : Type} (l : List (ChatId × β)) (c : ChatId)
    (s : β) :
    ((setS l c s).filter fun e => e.1 == c) = [(c, s)] := by
  rw [setS, List.filter_append]
  have h1 : ((eraseS l c).filter fun e => e.1 == c) = [] := by
    rw [List.filter_eq_nil_iff]
    intro e he
    simp [(mem_eraseS.mp he).2]
  rw [h1]
  simp

theorem filter_setS_ne_le {β : Type} (l : List (ChatId × β)) {c c' : ChatId}
    (s : β) (h : c' ≠ c) :
    ((setS l c s).filter fun e => e.1 == c').length ≤
      (l.filter fun e => e.1 == c').length := by
  rw [setS, List.filter_append]
  have h2 : (([(c, s)] : List (ChatId × β)).filter fun e => e.1 == c') = [] := by
    simp [show ¬ c = c' from fun hh => h hh.symm]
  rw [h2, List.append_nil]
  exact filter_eraseS_le l c c'

/-- Lemma: `stopQuizSessionFn` specification: the result is well-formed, the
chat is deregistered, no armed timer belongs to the chat any more, no
new timer is armed, the fresh counter is unchanged, and other chats'
sessions are untouched. -/
theorem stopQuizSession_spec (st : BotState) (c : ChatId) (hwf : WF st) :
    WF (stopQuizSessionFn st c).1 ∧
    lookupS (stopQuizSessionFn st c).1.sessions c = none ∧
    (stopQuizSessionFn st c).1.nextId = st.nextId ∧
    (∀ t ∈ (stopQuizSessionFn st c).1.live, t.chat ≠ c) ∧
    (stopQuizSessionFn st c).1.live.Sublist st.live ∧
    (∀ c', c' ≠ c →
      lookupS (stopQuizSessionFn st c).1.sessions c' = lookupS st.sessions c') := by
  rw [stopQuizSessionFn]
  cases hl : lookupS st.sessions c with
  | none =>
    refine ⟨hwf, hl, rfl, ?_, List.Sublist.refl _, fun _ _ => rfl⟩
    intro t ht hchat
    rcases hwf.owned t ht with ⟨s', hs', _⟩
    rw [hchat, hl] at hs'
    exact Option.noConfusion hs'
  | some s =>
    simp only [stopTimerFn]
    have hsub : (clearTimer (clearTimer st.live s.questionIntervalId)
        s.timerIntervalId).Sublist st.live :=
      (clearTimer_sublist _ _).trans (clearTimer_sublist _ _)
    have hchat : ∀ t ∈ clearTimer (clearTimer st.live s.questionIntervalId)
        s.timerIntervalId, t.chat ≠ c := by
      intro t ht hc
      rcases hwf.owned t (hsub.mem ht) with ⟨s', hs', hd, hcd⟩
      rw [hc, hl] at hs'
      have hss : s' = s := (Option.some.inj hs').symm
      subst hss
      cases hk : t.kind with
      | dispatch =>
        have hq := hd hk
        have ht1 : t ∈ clearTimer st.live s'.questionIntervalId :=
          mem_of_mem_clearTimer ht
        rw [hq] at ht1
        exact (mem_clearTimer_some.mp ht1).2 rfl
      | countdown =>
        have hq := hcd hk
        rw [hq] at ht
        exact (mem_clearTimer_some.mp ht).2 rfl
    refine ⟨?_, lookupS_eraseS_self _ _, trivial, hchat, hsub, ?_⟩
    · refine ⟨(hsub.map Timer.id).nodup hwf.nodupIds, ?_, ?_, ?_, ?_⟩
      · intro t ht
        exact hwf.freshLive t (hsub.mem ht)
      · intro t ht
        rcases hwf.owned t (hsub.mem ht) with ⟨s', hs', hd, hcd⟩
        exact ⟨s', by rw [lookupS_eraseS_ne _ (hchat t ht), hs'], hd, hcd⟩
      · intro e he
        exact hwf.freshSession e (mem_eraseS.mp he).1
      · intro c'
        exact le_trans (filter_eraseS_le _ _ _) (hwf.atMostOne c')
    · intro c' hc'
      exact lookupS_eraseS_ne _ hc'

theorem stopQuizSession_of_none {st : BotState} {c : ChatId}
    (h : lookupS st.sessions c = none) : stopQuizSessionFn st c = (st, []) := by
  rw [stopQuizSessionFn, h]

theorem startQuizSession_eq_nil {st : BotState} {c : ChatId} {qs : List Question}
    {count : ℕ} {sendOk : Bool} (h : qs.take (min count qs.length) = []) :
    startQuizSessionFn st c qs count sendOk =
      ((stopQuizSessionFn st c).1,
       (stopQuizSessionFn st c).2 ++ [Ev.repliedNoQuestions]) := by
  simp only [startQuizSessionFn, h]

theorem startQuizSession_eq_fail {st : BotState} {c : ChatId} {qs : List Question}
    {count : ℕ} {q0 : Question} {rest : List Question}
    (h : qs.take (min count qs.length) = q0 :: rest) :
    startQuizSessionFn st c qs count false =
      ((stopQuizSessionFn st c).1,
       (stopQuizSessionFn st c).2 ++ [Ev.repliedSendFailed]) := by
  have hnone : lookupS (stopQuizSessionFn st c).1.sessions c = none := by
    rw [stopQuizSessionFn]
    cases hl : lookupS st.sessions c with
    | none => exact hl
    | some s => exact lookupS_eraseS_self _ _
  simp only [startQuizSessionFn, h, Bool.false_eq_true, if_false,
    stopQuizSession_of_none hnone, List.append_nil]

theorem startQuizSession_eq_multi {st : BotState} {c : ChatId} {qs : List Question}
    {count : ℕ} {q0 : Question} {rest : List Question}
    (h : qs.take (min count qs.length) = q0 :: rest)
    (h2 : 1 < (q0 :: rest).length) :
    startQuizSessionFn st c qs count true =
      (⟨setS (stopQuizSessionFn st c).1.sessions c
          ⟨some ((stopQuizSessionFn st c).1.nextId + 1),
           some (stopQuizSessionFn st c).1.nextId, true, q0 :: rest, 1⟩,
        (stopQuizSessionFn st c).1.live ++
          [⟨(stopQuizSessionFn st c).1.nextId, c, .countdown⟩] ++
          [⟨(stopQuizSessionFn st c).1.nextId + 1, c, .dispatch⟩],
        (stopQuizSessionFn st c).1.nextId + 2⟩,
       (stopQuizSessionFn st c).2 ++ [.dispatched q0, .repliedStarted]) := by
  simp only [startQuizSessionFn, h, h2, if_true, startTimerFn, clearTimer]

theorem startQuizSession_eq_single {st : BotState} {c : ChatId} {qs : List Question}
    {count : ℕ} {q0 : Question} {rest : List Question}
    (h : qs.take (min count qs.length) = q0 :: rest)
    (h2 : ¬ 1 < (q0 :: rest).length) :
    startQuizSessionFn st c qs count true =
      (⟨setS (stopQuizSessionFn st c).1.sessions c
          ⟨some (stopQuizSessionFn st c).1.nextId, none, false, q0 :: rest, 1⟩,
        (stopQuizSessionFn st c).1.live ++
          [⟨(stopQuizSessionFn st c).1.nextId, c, .dispatch⟩],
        (stopQuizSessionFn st c).1.nextId + 1⟩,
       (stopQuizSessionFn st c).2 ++ [.dispatched q0, .repliedStarted]) := by
  simp only [startQuizSessionFn, h, h2, if_false, if_true]

theorem nodup_ids_append_one (live : List Timer) (t : Timer)
    (hn : (live.map Timer.id).Nodup) (h1 : ∀ u ∈ live, u.id < t.id) :
    ((live ++ [t]).map Timer.id).Nodup := by
  rw [List.map_append]
  refine List.Nodup.append hn (List.nodup_singleton _) ?_
  intro a ha hb
  rcases List.mem_map.mp ha with ⟨u, hu, hua⟩
  have hb' : a = t.id := by simpa using hb
  have := h1 u hu
  omega

/-- Lemma: `startQuizSessionFn` preserves well-formedness, and every armed
timer of the started chat is fresh (its handle is at least the previous
fresh counter). -/
theorem startQuizSession_spec (st : BotState) (c : ChatId) (qs : List Question)
    (count : ℕ) (sendOk : Bool) (hwf : WF st) :
    WF (startQuizSessionFn st c qs count sendOk).1 ∧
    (∀ t ∈ (startQuizSessionFn st c qs count sendOk).1.live,
      t.chat = c → st.nextId ≤ t.id) := by
  obtain ⟨hwf1, hnone1, hnid1, hchat1, hsub1, hoth1⟩ := stopQuizSession_spec st c hwf
  cases htake : qs.take (min count qs.length) with
  | nil =>
    rw [startQuizSession_eq_nil htake]
    exact ⟨hwf1, fun t ht hc => absurd hc (hchat1 t ht)⟩
  | cons q0 rest =>
    cases sendOk with
    | false =>
      rw [startQuizSession_eq_fail htake]
      exact ⟨hwf1, fun t ht hc => absurd hc (hchat1 t ht)⟩
    | true =>
      by_cases h2 : 1 < (q0 :: rest).length
      · rw [startQuizSession_eq_multi htake h2]
        refine ⟨⟨?_, ?_, ?_, ?_, ?_⟩, ?_⟩
        · refine nodup_ids_append_one _ _ (nodup_ids_append_one _ _ hwf1.nodupIds ?_) ?_
          · exact fun u hu => hwf1.freshLive u hu
          · intro u hu
            rcases List.mem_append.mp hu with h | h
            · have := hwf1.freshLive u h
              try dsimp only
              omega
            · have : u = ⟨(stopQuizSessionFn st c).1.nextId, c, .countdown⟩ := by
                simpa using h
              rw [this]
              try dsimp only
              omega
        · intro t ht
          rcases List.mem_append.mp ht with h | h
          · rcases List.mem_append.mp h with h' | h'
            · have := hwf1.freshLive t h'
              try dsimp only
              omega
            · have : t = ⟨(stopQuizSessionFn st c).1.nextId, c, .countdown⟩ := by
                simpa using h'
              rw [this]
              try dsimp only
              omega
          · have : t = ⟨(stopQuizSessionFn st c).1.nextId + 1, c, .dispatch⟩ := by
              simpa using h
            rw [this]
            try dsimp only
            omega
        · intro t ht
          rcases List.mem_append.mp ht with h | h
          · rcases List.mem_append.mp h with h' | h'
            · rcases hwf1.owned t h' with ⟨s', hs', hd, hcd⟩
              refine ⟨s', ?_, hd, hcd⟩
              rw [lookupS_setS_ne _ _ (hchat1 t h'), hs']
            · have ht' : t = ⟨(stopQuizSessionFn st c).1.nextId, c, .countdown⟩ := by
                simpa using h'
              subst ht'
              refine ⟨_, lookupS_setS_self _ _ _, ?_, ?_⟩
              · intro hk
                exact absurd hk (by simp)
              · intro _
                rfl
          · have ht' : t = ⟨(stopQuizSessionFn st c).1.nextId + 1, c, .dispatch⟩ := by
              simpa using h
            subst ht'
            refine ⟨_, lookupS_setS_self _ _ _, ?_, ?_⟩
            · intro _
              rfl
            · intro hk
              exact absurd hk (by simp)
        · intro e he
          rcases List.mem_append.mp he with h | h
          · have hm := (mem_eraseS.mp h).1
            have := hwf1.freshSession e hm
            constructor
            · intro i hi
              have := this.1 i hi
              try dsimp only
              omega
            · intro i hi
              have := this.2 i hi
              try dsimp only
              omega
          · have he' : e = (c, ⟨some ((stopQuizSessionFn st c).1.nextId + 1),
                some (stopQuizSessionFn st c).1.nextId, true, q0 :: rest, 1⟩) := by
              simpa using h
            subst he'
            constructor
            · intro i hi
              have : i = (stopQuizSessionFn st c).1.nextId + 1 := by
                simpa using hi.symm
              try dsimp only
              omega
            · intro i hi
              have : i = (stopQuizSessionFn st c).1.nextId := by
                simpa using hi.symm
              try dsimp only
              omega
        · intro c'
          by_cases hc' : c' = c
          · subst hc'
            rw [filter_setS_self]
            simp
          · exact le_trans (filter_setS_ne_le _ _ hc') (hwf1.atMostOne c')
        · intro t ht hc
          rcases List.mem_append.mp ht with h | h
          · rcases List.mem_append.mp h with h' | h'
            · exact absurd hc (hchat1 t h')
            · have ht' : t = ⟨(stopQuizSessionFn st c).1.nextId, c, .countdown⟩ := by
                simpa using h'
              rw [ht', hnid1]
          · have ht' : t = ⟨(stopQuizSessionFn st c).1.nextId + 1, c, .dispatch⟩ := by
              simpa using h
            rw [ht']
            rw [hnid1] at *
            try dsimp only
            omega
      · rw [startQuizSession_eq_single htake h2]
        refine ⟨⟨?_, ?_, ?_, ?_, ?_⟩, ?_⟩
        · exact nodup_ids_append_one _ _ hwf1.nodupIds fun u hu => hwf1.freshLive u hu
        · intro t ht
          rcases List.mem_append.mp ht with h | h
          · have := hwf1.freshLive t h
            try dsimp only
            omega
          · have ht' : t = ⟨(stopQuizSessionFn st c).1.nextId, c, .dispatch⟩ := by
              simpa using h
            rw [ht']
            try dsimp only
            omega
        · intro t ht
          rcases List.mem_append.mp ht with h | h
          · rcases hwf1.owned t h with ⟨s', hs', hd, hcd⟩
            refine ⟨s', ?_, hd, hcd⟩
            rw [lookupS_setS_ne _ _ (hchat1 t h), hs']
          · have ht' : t = ⟨(stopQuizSessionFn st c).1.nextId, c, .dispatch⟩ := by
              simpa using h
            subst ht'
            refine ⟨_, lookupS_setS_self _ _ _, ?_, ?_⟩
            · intro _
              rfl
            · intro hk
              exact absurd hk (by simp)
        · intro e he
          rcases List.mem_append.mp he with h | h
          · have hm := (mem_eraseS.mp h).1
            have := hwf1.freshSession e hm
            constructor
            · intro i hi
              have := this.1 i hi
              try dsimp only
              omega
            · intro i hi
              have := this.2 i hi
              try dsimp only
              omega
          · have he' : e = (c, ⟨some (stopQuizSessionFn st c).1.nextId,
                none, false, q0 :: rest, 1⟩) := by
              simpa using h
            subst he'
            constructor
            · intro i hi
              have : i = (stopQuizSessionFn st c).1.nextId := by
                simpa using hi.symm
              try dsimp only
              omega
            · intro i hi
              exact absurd hi (by simp)
        · intro c'
          by_cases hc' : c' = c
          · subst hc'
            rw [filter_setS_self]
            simp
          · exact le_trans (filter_setS_ne_le _ _ hc') (hwf1.atMostOne c')
        · intro t ht hc
          rcases List.mem_append.mp ht with h | h
          · exact absurd hc (hchat1 t h)
          · have ht' : t = ⟨(stopQuizSessionFn st c).1.nextId, c, .dispatch⟩ := by
              simpa using h
            rw [ht', hnid1]

theorem eraseS_append {β : Type} (l₁ l₂ : List (ChatId × β)) (c : ChatId) :
    eraseS (l₁ ++ l₂) c = eraseS l₁ c ++ eraseS l₂ c := by
  induction l₁ with
  | nil => rfl
  | cons e es ih =>
    rw [List.cons_append, eraseS, eraseS]
    by_cases he : e.1 = c
    · rw [if_pos he, if_pos he, ih]
    · rw [if_neg he, if_neg he, ih, List.cons_append]

theorem eraseS_idem {β : Type} (l : List (ChatId × β)) (c : ChatId) :
    eraseS (eraseS l c) c = eraseS l c := by
  induction l with
  | nil => rfl
  | cons e es ih =>
    rw [eraseS]
    by_cases he : e.1 = c
    · rw [if_pos he, ih]
    · rw [if_neg he, eraseS, if_neg he, ih]

theorem setS_setS {β : Type} (l : List (ChatId × β)) (c : ChatId)
    (s₁ s₂ : β) : setS (setS l c s₁) c s₂ = setS l c s₂ := by
  rw [setS, setS, setS, eraseS_append, eraseS_idem]
  rw [show eraseS [(c, s₁)] c = [] from by rw [eraseS, if_pos rfl]; rfl]
  rw [List.append_nil]

theorem lookupS_some_mem {β : Type} {l : List (ChatId × β)} {c : ChatId}
    {s : β} (h : lookupS l c = some s) : (c, s) ∈ l := by
  induction l with
  | nil => exact absurd h (by simp [lookupS])
  | cons e es ih =>
    rw [lookupS] at h
    by_cases he : e.1 = c
    · rw [if_pos he] at h
      have hs : e.2 = s := Option.some.inj h
      have : e = (c, s) := Prod.ext he hs
      exact this ▸ List.mem_cons_self e es
    · rw [if_neg he] at h
      exact List.mem_cons_of_mem e (ih h)

theorem questionTick_eq_stale {st : BotState} {c : ChatId} {i : ℕ} {sendOk : Bool}
    (h : (⟨i, c, .dispatch⟩ : Timer) ∉ st.live) :
    questionTickFn st c i sendOk = (st, []) := by
  rw [questionTickFn, if_neg h]

theorem questionTick_eq_nosession {st : BotState} {c : ChatId} {i : ℕ}
    {sendOk : Bool} (hmem : (⟨i, c, .dispatch⟩ : Timer) ∈ st.live)
    (hl : lookupS st.sessions c = none) :
    questionTickFn st c i sendOk = (st, []) := by
  rw [questionTickFn, if_pos hmem, hl]

theorem questionTick_eq_complete {st : BotState} {c : ChatId} {i : ℕ}
    {sendOk : Bool} {s : QuizSession}
    (hmem : (⟨i, c, .dispatch⟩ : Timer) ∈ st.live)
    (hl : lookupS st.sessions c = some s)
    (hge : s.questions.length ≤ s.currentIndex) :
    questionTickFn st c i sendOk =
      ((stopQuizSessionFn ⟨setS st.sessions c (stopTimerFn st.live s).2,
          (stopTimerFn st.live s).1, st.nextId⟩ c).1,
       [Ev.repliedCompleted] ++
        (stopQuizSessionFn ⟨setS st.sessions c (stopTimerFn st.live s).2,
          (stopTimerFn st.live s).1, st.nextId⟩ c).2) := by
  simp only [questionTickFn, if_pos hmem, hl, if_pos hge]

theorem questionTick_eq_fail {st : BotState} {c : ChatId} {i : ℕ}
    {s : QuizSession}
    (hmem : (⟨i, c, .dispatch⟩ : Timer) ∈ st.live)
    (hl : lookupS st.sessions c = some s)
    (hlt : ¬ s.questions.length ≤ s.currentIndex) :
    questionTickFn st c i false =
      ((stopQuizSessionFn ⟨setS st.sessions c (stopTimerFn st.live s).2,
          (stopTimerFn st.live s).1, st.nextId⟩ c).1,
       [Ev.repliedSendFailed] ++
        (stopQuizSessionFn ⟨setS st.sessions c (stopTimerFn st.live s).2,
          (stopTimerFn st.live s).1, st.nextId⟩ c).2) := by
  simp only [questionTickFn, if_pos hmem, hl, if_neg hlt, Bool.false_eq_true, if_false]

theorem questionTick_eq_more {st : BotState} {c : ChatId} {i : ℕ}
    {s : QuizSession}
    (hmem : (⟨i, c, .dispatch⟩ : Timer) ∈ st.live)
    (hl : lookupS st.sessions c = some s)
    (hlt : ¬ s.questions.length ≤ s.currentIndex)
    (hmore : s.currentIndex + 1 < s.questions.length) :
    questionTickFn st c i true =
      (⟨setS st.sessions c
          ⟨s.questionIntervalId, some st.nextId, true, s.questions, s.currentIndex + 1⟩,
        clearTimer st.live s.timerIntervalId ++ [⟨st.nextId, c, .countdown⟩],
        st.nextId + 1⟩,
       [Ev.dispatched (s.questions.getD s.currentIndex default)]) := by
  simp only [questionTickFn, if_pos hmem, hl, if_neg hlt, if_true, startTimerFn,
    setS_setS]
  simp only [if_pos hmore]

theorem questionTick_eq_last {st : BotState} {c : ChatId} {i : ℕ}
    {s : QuizSession}
    (hmem : (⟨i, c, .dispatch⟩ : Timer) ∈ st.live)
    (hl : lookupS st.sessions c = some s)
    (hlt : ¬ s.questions.length ≤ s.currentIndex)
    (hlast : ¬ s.currentIndex + 1 < s.questions.length) :
    questionTickFn st c i true =
      (⟨setS st.sessions c
          ⟨s.questionIntervalId, none, false, s.questions, s.currentIndex + 1⟩,
        clearTimer st.live s.timerIntervalId, st.nextId⟩,
       [Ev.dispatched (s.questions.getD s.currentIndex default)]) := by
  simp only [questionTickFn, if_pos hmem, hl, if_neg hlt, if_true, stopTimerFn]
  simp only [if_neg hlast]

/-- Clearing a timer (with the session map untouched) preserves
well-formedness. -/
theorem WF_clearLive (st : BotState) (o : Option ℕ) (hwf : WF st) :
    WF ⟨st.sessions, clearTimer st.live o, st.nextId⟩ := by
  have hsub := clearTimer_sublist st.live o
  refine ⟨(hsub.map Timer.id).nodup hwf.nodupIds, ?_, ?_, ?_, ?_⟩
  · exact fun t ht => hwf.freshLive t (hsub.mem ht)
  · exact fun t ht => hwf.owned t (hsub.mem ht)
  · exact fun e he => hwf.freshSession e he
  · exact hwf.atMostOne

/-- Replacing the registered session of `c` by one with the same
cadence handle and no countdown handle, while clearing the previous
countdown interval, preserves well-formedness. -/
theorem WF_clear_countdown_set (st : BotState) (c : ChatId) (s s' : QuizSession)
    (hwf : WF st) (hl : lookupS st.sessions c = some s)
    (hq : s'.questionIntervalId = s.questionIntervalId)
    (ht : s'.timerIntervalId = none) :
    WF ⟨setS st.sessions c s', clearTimer st.live s.timerIntervalId, st.nextId⟩ := by
  have hsub := clearTimer_sublist st.live s.timerIntervalId
  have hsmem := lookupS_some_mem hl
  refine ⟨(hsub.map Timer.id).nodup hwf.nodupIds, ?_, ?_, ?_, ?_⟩
  · exact fun t ht' => hwf.freshLive t (hsub.mem ht')
  · intro t ht'
    rcases hwf.owned t (hsub.mem ht') with ⟨s₀, hs₀, hd, hcd⟩
    by_cases hc : t.chat = c
    · rw [hc, hl] at hs₀
      have hss : s₀ = s := (Option.some.inj hs₀).symm
      subst hss
      cases hk : t.kind with
      | dispatch =>
        refine ⟨s', ?_, ?_, ?_⟩
        · rw [hc]
          exact lookupS_setS_self _ _ _
        · intro _
          rw [hq]
          exact hd hk
        · intro hk'
          rw [hk] at hk'
          exact absurd hk' (by simp)
      | countdown =>
        have hq' := hcd hk
        rw [hq'] at ht'
        exact absurd rfl (mem_clearTimer_some.mp ht').2
    · refine ⟨s₀, ?_, hd, hcd⟩
      rw [lookupS_setS_ne _ _ hc, hs₀]
  · intro e he
    rcases List.mem_append.mp he with h | h
    · exact hwf.freshSession e (mem_eraseS.mp h).1
    · have he' : e = (c, s') := by simpa using h
      subst he'
      constructor
      · intro j hj
        refine (hwf.freshSession (c, s) hsmem).1 j ?_
        rw [← hq]
        exact hj
      · intro j hj
        rw [ht] at hj
        exact absurd hj (by simp)
  · intro c'
    by_cases hc' : c' = c
    · subst hc'
      rw [filter_setS_self]
      simp
    · exact le_trans (filter_setS_ne_le _ _ hc') (hwf.atMostOne c')

/-- Lemma: `questionTickFn` preserves well-formedness. -/
theorem questionTick_WF (st : BotState) (c : ChatId) (i : ℕ) (sendOk : Bool)
    (hwf : WF st) : WF (questionTickFn st c i sendOk).1 := by
  by_cases hmem : (⟨i, c, .dispatch⟩ : Timer) ∈ st.live
  · cases hl : lookupS st.sessions c with
    | none =>
      rw [questionTick_eq_nosession hmem hl]
      exact hwf
    | some s =>
      have hmid : WF ⟨setS st.sessions c (stopTimerFn st.live s).2,
          (stopTimerFn st.live s).1, st.nextId⟩ :=
        WF_clear_countdown_set st c s _ hwf hl rfl rfl
      by_cases hge : s.questions.length ≤ s.currentIndex
      · rw [questionTick_eq_complete hmem hl hge]
        exact (stopQuizSession_spec _ c hmid).1
      · cases sendOk with
        | false =>
          rw [questionTick_eq_fail hmem hl hge]
          exact (stopQuizSession_spec _ c hmid).1
        | true =>
          have hsmem := lookupS_some_mem hl
          by_cases hmore : s.currentIndex + 1 < s.questions.length
          · rw [questionTick_eq_more hmem hl hge hmore]
            have hsub := clearTimer_sublist st.live s.timerIntervalId
            refine ⟨?_, ?_, ?_, ?_, ?_⟩
            · refine nodup_ids_append_one _ _ ((hsub.map Timer.id).nodup hwf.nodupIds) ?_
              intro u hu
              exact hwf.freshLive u (hsub.mem hu)
            · intro t ht
              rcases List.mem_append.mp ht with h | h
              · have := hwf.freshLive t (hsub.mem h)
                try dsimp only
                omega
              · have ht' : t = ⟨st.nextId, c, .countdown⟩ := by simpa using h
                rw [ht']
                try dsimp only
                try dsimp only
                omega
            · intro t ht
              rcases List.mem_append.mp ht with h | h
              · rcases hwf.owned t (hsub.mem h) with ⟨s₀, hs₀, hd, hcd⟩
                by_cases hc : t.chat = c
                · rw [hc, hl] at hs₀
                  have hss : s₀ = s := (Option.some.inj hs₀).symm
                  rw [hss] at hd hcd
                  cases hk : t.kind with
                  | dispatch =>
                    refine ⟨⟨s.questionIntervalId, some st.nextId, true,
                      s.questions, s.currentIndex + 1⟩, ?_, ?_, ?_⟩
                    · rw [hc]
                      exact lookupS_setS_self _ _ _
                    · intro _
                      exact hd hk
                    · intro hk'
                      rw [hk] at hk'
                      exact absurd hk' (by simp)
                  | countdown =>
                    have hq' := hcd hk
                    rw [hq'] at h
                    exact absurd rfl (mem_clearTimer_some.mp h).2
                · refine ⟨s₀, ?_, hd, hcd⟩
                  rw [lookupS_setS_ne _ _ hc, hs₀]
              · have ht' : t = ⟨st.nextId, c, .countdown⟩ := by simpa using h
                subst ht'
                refine ⟨_, lookupS_setS_self _ _ _, ?_, ?_⟩
                · intro hk
                  exact absurd hk (by simp)
                · intro _
                  rfl
            · intro e he
              rcases List.mem_append.mp he with h | h
              · have := hwf.freshSession e (mem_eraseS.mp h).1
                constructor
                · intro j hj
                  have := this.1 j hj
                  try dsimp only
                  omega
                · intro j hj
                  have := this.2 j hj
                  try dsimp only
                  omega
              · have he' : e = (c, ⟨s.questionIntervalId, some st.nextId, true,
                    s.questions, s.currentIndex + 1⟩) := by simpa using h
                subst he'
                constructor
                · intro j hj
                  have := (hwf.freshSession (c, s) hsmem).1 j hj
                  try dsimp only
                  omega
                · intro j hj
                  have hj' : j = st.nextId := by simpa using hj.symm
                  try dsimp only
                  omega
            · intro c'
              by_cases hc' : c' = c
              · subst hc'
                rw [filter_setS_self]
                simp
              · exact le_trans (filter_setS_ne_le _ _ hc') (hwf.atMostOne c')
          · rw [questionTick_eq_last hmem hl hge hmore]
            exact WF_clear_countdown_set st c s _ hwf hl rfl rfl
  · rw [questionTick_eq_stale hmem]
    exact hwf

theorem countdownTick_eq_skip {st : BotState} {c : ChatId} {i : ℕ}
    {editFail : Bool}
    (h : ¬ ((⟨i, c, .countdown⟩ : Timer) ∈ st.live ∧ editFail = true)) :
    countdownTickFn st c i editFail = st := by
  rw [countdownTickFn, if_neg h]

theorem countdownTick_eq_none {st : BotState} {c : ChatId} {i : ℕ}
    {editFail : Bool}
    (h : (⟨i, c, .countdown⟩ : Timer) ∈ st.live ∧ editFail = true)
    (hl : lookupS st.sessions c = none) :
    countdownTickFn st c i editFail =
      ⟨st.sessions, clearTimer st.live (some i), st.nextId⟩ := by
  simp only [countdownTickFn, if_pos h, hl]

theorem countdownTick_eq_other {st : BotState} {c : ChatId} {i : ℕ}
    {editFail : Bool} {s : QuizSession}
    (h : (⟨i, c, .countdown⟩ : Timer) ∈ st.live ∧ editFail = true)
    (hl : lookupS st.sessions c = some s)
    (hti : ¬ s.timerIntervalId = some i) :
    countdownTickFn st c i editFail =
      ⟨st.sessions, clearTimer st.live (some i), st.nextId⟩ := by
  simp only [countdownTickFn, if_pos h, hl, if_neg hti]

theorem countdownTick_eq_clear {st : BotState} {c : ChatId} {i : ℕ}
    {editFail : Bool} {s : QuizSession}
    (h : (⟨i, c, .countdown⟩ : Timer) ∈ st.live ∧ editFail = true)
    (hl : lookupS st.sessions c = some s)
    (hti : s.timerIntervalId = some i) :
    countdownTickFn st c i editFail =
      ⟨setS st.sessions c
        ⟨s.questionIntervalId, none, false, s.questions, s.currentIndex⟩,
       clearTimer st.live (some i), st.nextId⟩ := by
  simp only [countdownTickFn, if_pos h, hl, if_pos hti]

/-- Lemma: `countdownTickFn` preserves well-formedness. -/
theorem countdownTick_WF (st : BotState) (c : ChatId) (i : ℕ) (editFail : Bool)
    (hwf : WF st) : WF (countdownTickFn st c i editFail) := by
  by_cases hcond : (⟨i, c, .countdown⟩ : Timer) ∈ st.live ∧ editFail = true
  · cases hl : lookupS st.sessions c with
    | none =>
      rw [countdownTick_eq_none hcond hl]
      exact WF_clearLive st (some i) hwf
    | some s =>
      by_cases hti : s.timerIntervalId = some i
      · rw [countdownTick_eq_clear hcond hl hti, ← hti]
        exact WF_clear_countdown_set st c s _ hwf hl rfl rfl
      · rw [countdownTick_eq_other hcond hl hti]
        exact WF_clearLive st (some i) hwf
  · rw [countdownTick_eq_skip hcond]
    exact hwf

/-- Lemma: `stopCommandFn` preserves well-formedness. -/
theorem stopCommand_WF (st : BotState) (c : ChatId) (hwf : WF st) :
    WF (stopCommandFn st c).1 := by
  rw [stopCommandFn]
  by_cases h : (lookupS st.sessions c).isSome
  · rw [if_pos h]
    exact (stopQuizSession_spec st c hwf).1
  · rw [if_neg h]
    exact hwf

/-- The initial state is well-formed. -/
theorem WF_init : WF initState := by
  refine ⟨List.nodup_nil, ?_, ?_, ?_, ?_⟩ <;> simp [initState]

/-- Every reachable scheduler state is well-formed. -/
theorem WF_of_reachable {st : BotState} (h : SchedReachable st) : WF st := by
  induction h with
  | init => exact WF_init
  | step hr hs ih =>
    cases hs with
    | start c qs count sendOk => exact (startQuizSession_spec _ c qs count sendOk ih).1
    | tick c i sendOk => exact questionTick_WF _ c i sendOk ih
    | cdTick c i editFail => exact countdownTick_WF _ c i editFail ih
    | stopCmd c => exact stopCommand_WF _ c ih

/-- Iterate `k` fires of the cadence interval `i` of chat `c` (each
dispatch succeeding), collecting the outputs. -/
def runTicks (c : ChatId) (i : ℕ) : ℕ → BotState → BotState × List Ev
  | 0, st => (st, [])
  | Nat.succ k, st =>
    ((runTicks c i k (questionTickFn st c i true).1).1,
     (questionTickFn st c i true).2 ++ (runTicks c i k (questionTickFn st c i true).1).2)

def isDispatchEv : Ev → Bool
  | .dispatched _ => true
  | _ => false

/-- Number of questions dispatched in an output trace. -/
def dispatchCount (evs : List Ev) : ℕ := (evs.filter isDispatchEv).length

theorem dispatchCount_append (a b : List Ev) :
    dispatchCount (a ++ b) = dispatchCount a + dispatchCount b := by
  rw [dispatchCount, List.filter_append, List.length_append]
  rfl

theorem stopQuizSession_events_of_some {st : BotState} {c : ChatId}
    {s : QuizSession} (hl : lookupS st.sessions c = some s) :
    (stopQuizSessionFn st c).2 = [Ev.repliedQuizStopped] := by
  rw [stopQuizSessionFn, hl]

theorem dispatchCount_stop (st : BotState) (c : ChatId) :
    dispatchCount (stopQuizSessionFn st c).2 = 0 := by
  cases hl : lookupS st.sessions c with
  | none =>
    rw [stopQuizSession_of_none hl]
    rfl
  | some s =>
    rw [stopQuizSession_events_of_some hl]
    rfl

/-- The running quiz session of chat `c`: registered with cadence
handle `i` (live), question list `qs` and index `idx`; the countdown
handle, when armed, differs from the cadence handle. -/
def SessionLive (st : BotState) (c : ChatId) (i : ℕ) (qs : List Question)
    (idx : ℕ) : Prop :=
  ∃ cd msg, lookupS st.sessions c = some ⟨some i, cd, msg, qs, idx⟩ ∧
    (⟨i, c, .dispatch⟩ : Timer) ∈ st.live ∧
    (∀ j, cd = some j → ¬ j = i)

/-- One successful dispatching fire: the index advances, the session
stays live, and exactly the current question is emitted. -/
theorem tick_step_dispatch {st : BotState} {c : ChatId} {i : ℕ}
    {qs : List Question} {idx : ℕ} (hwf : WF st)
    (hs : SessionLive st c i qs idx) (hlt : idx < qs.length) :
    SessionLive (questionTickFn st c i true).1 c i qs (idx + 1) ∧
    (questionTickFn st c i true).2 = [Ev.dispatched (qs.getD idx default)] := by
  rcases hs with ⟨cd, msg, hlk, hmem, hcdne⟩
  have hlt' : ¬ (QuizSession.mk (some i) cd msg qs idx).questions.length ≤
      (QuizSession.mk (some i) cd msg qs idx).currentIndex := by
    dsimp only
    omega
  have hmemclear : (⟨i, c, .dispatch⟩ : Timer) ∈ clearTimer st.live cd := by
    cases cd with
    | none => exact hmem
    | some j =>
      refine mem_clearTimer_some.mpr ⟨hmem, ?_⟩
      have := hcdne j rfl
      dsimp only
      omega
  by_cases hmore : idx + 1 < qs.length
  · have heq := questionTick_eq_more hmem hlk hlt' (by dsimp only; omega)
    rw [heq]
    refine ⟨⟨some st.nextId, true, ?_, ?_, ?_⟩, rfl⟩
    · exact lookupS_setS_self _ _ _
    · exact List.mem_append.mpr (Or.inl hmemclear)
    · intro j hj
      have hj' : j = st.nextId := Option.some.inj hj.symm
      have := hwf.freshLive _ hmem
      dsimp only at this
      omega
  · have heq := questionTick_eq_last hmem hlk hlt' (by dsimp only; omega)
    rw [heq]
    refine ⟨⟨none, false, ?_, ?_, ?_⟩, rfl⟩
    · exact lookupS_setS_self _ _ _
    · exact hmemclear
    · intro j hj
      exact absurd hj (by simp)

/-- The completing fire: with the index at the end, the session is torn
down — the chat is deregistered, no timer of the chat stays armed, and
completion plus stop are announced. -/
theorem tick_step_complete {st : BotState} {c : ChatId} {i : ℕ}
    {qs : List Question} {idx : ℕ} (hwf : WF st)
    (hs : SessionLive st c i qs idx) (hge : qs.length ≤ idx) :
    lookupS (questionTickFn st c i true).1.sessions c = none ∧
    (∀ t ∈ (questionTickFn st c i true).1.live, t.chat ≠ c) ∧
    (questionTickFn st c i true).2 = [Ev.repliedCompleted, Ev.repliedQuizStopped] := by
  rcases hs with ⟨cd, msg, hlk, hmem, hcdne⟩
  have hge' : (QuizSession.mk (some i) cd msg qs idx).questions.length ≤
      (QuizSession.mk (some i) cd msg qs idx).currentIndex := by
    dsimp only
    omega
  have heq := @questionTick_eq_complete st c i true _ hmem hlk hge'
  rw [heq]
  have hmid : WF ⟨setS st.sessions c
      (stopTimerFn st.live (QuizSession.mk (some i) cd msg qs idx)).2,
      (stopTimerFn st.live (QuizSession.mk (some i) cd msg qs idx)).1, st.nextId⟩ :=
    WF_clear_countdown_set st c _ _ hwf hlk rfl rfl
  obtain ⟨_, hnone, _, hchat, _, _⟩ := stopQuizSession_spec _ c hmid
  refine ⟨hnone, hchat, ?_⟩
  have hlk2 : lookupS (setS st.sessions c
      (stopTimerFn st.live (QuizSession.mk (some i) cd msg qs idx)).2) c =
      some (stopTimerFn st.live (QuizSession.mk (some i) cd msg qs idx)).2 :=
    lookupS_setS_self _ _ _
  rw [stopQuizSession_events_of_some hlk2]
  rfl

/-- A cleared cadence interval never fires again: iterating it leaves
the state and the trace untouched. -/
theorem runTicks_stale {st : BotState} {c : ChatId} {i : ℕ}
    (h : (⟨i, c, .dispatch⟩ : Timer) ∉ st.live) :
    ∀ k, runTicks c i k st = (st, []) := by
  intro k
  induction k with
  | zero => rfl
  | succ k ih =>
    rw [runTicks, questionTick_eq_stale h, ih]
    rfl

theorem runTicks_succ_fst (c : ChatId) (i k : ℕ) (st : BotState) :
    (runTicks c i (k + 1) st).1 = (runTicks c i k (questionTickFn st c i true).1).1 :=
  rfl

theorem runTicks_succ_snd (c : ChatId) (i k : ℕ) (st : BotState) :
    (runTicks c i (k + 1) st).2 =
      (questionTickFn st c i true).2 ++ (runTicks c i k (questionTickFn st c i true).1).2 :=
  rfl

theorem runTicks_stale_fst {st : BotState} {c : ChatId} {i : ℕ}
    (h : (⟨i, c, .dispatch⟩ : Timer) ∉ st.live) (k : ℕ) :
    (runTicks c i k st).1 = st := by
  rw [runTicks_stale h k]

theorem runTicks_stale_snd {st : BotState} {c : ChatId} {i : ℕ}
    (h : (⟨i, c, .dispatch⟩ : Timer) ∉ st.live) (k : ℕ) :
    (runTicks c i k st).2 = [] := by
  rw [runTicks_stale h k]

/-- Main run lemma: from a live session at index `idx`, `k` further
fires dispatch `min (idx + k) qs.length - idx` questions, and once the
fire after the last question has happened the chat is deregistered with
no armed timer and completion has been announced. -/
theorem runTicks_spec (c : ChatId) (i : ℕ) (qs : List Question) :
    ∀ (k : ℕ) (st : BotState) (idx : ℕ), WF st → SessionLive st c i qs idx →
      idx ≤ qs.length →
      dispatchCount (runTicks c i k st).2 = min (idx + k) qs.length - idx ∧
      (qs.length + 1 ≤ idx + k →
        lookupS (runTicks c i k st).1.sessions c = none ∧
        (∀ t ∈ (runTicks c i k st).1.live, t.chat ≠ c) ∧
        Ev.repliedCompleted ∈ (runTicks c i k st).2) := by
  intro k
  induction k with
  | zero =>
    intro st idx hwf hs hle
    refine ⟨?_, ?_⟩
    · rw [show (runTicks c i 0 st).2 = [] from rfl]
      rw [show dispatchCount [] = 0 from rfl]
      omega
    · intro hk
      exact absurd hk (by omega)
  | succ k ih =>
    intro st idx hwf hs hle
    by_cases hlt : idx < qs.length
    · obtain ⟨hs', hev⟩ := tick_step_dispatch hwf hs hlt
      have hwf' := questionTick_WF st c i true hwf
      obtain ⟨ihc, ihdone⟩ := ih (questionTickFn st c i true).1 (idx + 1) hwf' hs' (by omega)
      refine ⟨?_, ?_⟩
      · rw [runTicks_succ_snd, dispatchCount_append, hev, ihc]
        rw [show dispatchCount [Ev.dispatched (qs.getD idx default)] = 1 from rfl]
        omega
      · intro hk
        obtain ⟨h1, h2, h3⟩ := ihdone (by omega)
        rw [runTicks_succ_fst, runTicks_succ_snd]
        exact ⟨h1, h2, List.mem_append.mpr (Or.inr h3)⟩
    · have hge : qs.length ≤ idx := by omega
      obtain ⟨h1, h2, h3⟩ := tick_step_complete hwf hs hge
      have hnm : (⟨i, c, .dispatch⟩ : Timer) ∉ (questionTickFn st c i true).1.live := by
        intro hmem'
        exact (h2 _ hmem') rfl
      refine ⟨?_, ?_⟩
      · rw [runTicks_succ_snd, dispatchCount_append, h3, runTicks_stale_snd hnm]
        rw [show dispatchCount [Ev.repliedCompleted, Ev.repliedQuizStopped] = 0 from rfl]
        rw [show dispatchCount [] = 0 from rfl]
        omega
      · intro _
        rw [runTicks_succ_fst, runTicks_succ_snd, runTicks_stale_fst hnm,
          runTicks_stale_snd hnm]
        refine ⟨h1, h2, ?_⟩
        rw [h3]
        simp

theorem run_after_start (c : ChatId) (i : ℕ) (sel : List Question) (st1 : BotState)
    (evs : List Ev) (hwf1 : WF st1) (hsl : SessionLive st1 c i sel 1)
    (hone : 1 ≤ sel.length) (hdc : dispatchCount evs = 1) :
    ∀ k, dispatchCount (evs ++ (runTicks c i k st1).2) = min (k + 1) sel.length ∧
      (sel.length ≤ k →
        lookupS (runTicks c i k st1).1.sessions c = none ∧
        (∀ t ∈ (runTicks c i k st1).1.live, t.chat ≠ c) ∧
        Ev.repliedCompleted ∈ (runTicks c i k st1).2) := by
  intro k
  obtain ⟨hc1, hc2⟩ := runTicks_spec c i sel k st1 1 hwf1 hsl hone
  refine ⟨?_, ?_⟩
  · rw [dispatchCount_append, hdc, hc1]
    omega
  · intro hk
    exact hc2 (by omega)

/-- C2: a session started (every dispatch succeeding) with a non-empty
selection of `N = min count qs.length` questions dispatches exactly
`min (k + 1) N` questions after the synchronous first dispatch and `k`
cadence fires — so exactly `N` in total and never an `(N+1)`-st — and
once `N ≤ k` fires have happened, completion has been announced, the
chat's entry is removed, and no timer of the chat stays armed. -/
theorem quiz_session_dispatches_exactly_N (st : BotState) (h : SchedReachable st)
    (c : ChatId) (qs : List Question) (count : ℕ)
    (hN : 0 < min count qs.length) :
    ∃ i, ∀ k,
      dispatchCount ((startQuizSessionFn st c qs count true).2 ++
          (runTicks c i k (startQuizSessionFn st c qs count true).1).2) =
        min (k + 1) (min count qs.length) ∧
      (min count qs.length ≤ k →
        lookupS (runTicks c i k
          (startQuizSessionFn st c qs count true).1).1.sessions c = none ∧
        (∀ t ∈ (runTicks c i k (startQuizSessionFn st c qs count true).1).1.live,
          t.chat ≠ c) ∧
        Ev.repliedCompleted ∈
          (runTicks c i k (startQuizSessionFn st c qs count true).1).2) := by
  have hwf := WF_of_reachable h
  cases htake : qs.take (min count qs.length) with
  | nil =>
    exfalso
    have h2 := congrArg List.length htake
    rw [List.length_take] at h2
    simp only [List.length_nil] at h2
    omega
  | cons q0 rest =>
    have h2 := congrArg List.length htake
    rw [List.length_take] at h2
    have hlen : (q0 :: rest).length = min count qs.length := by omega
    have hone : 1 ≤ (q0 :: rest).length := by simp
    obtain ⟨hwf1, hfreshc⟩ := startQuizSession_spec st c qs count true hwf
    by_cases hm : 1 < (q0 :: rest).length
    · refine ⟨(stopQuizSessionFn st c).1.nextId + 1, fun k => ?_⟩
      have hsl : SessionLive (startQuizSessionFn st c qs count true).1 c
          ((stopQuizSessionFn st c).1.nextId + 1) (q0 :: rest) 1 := by
        rw [startQuizSession_eq_multi htake hm]
        refine ⟨some (stopQuizSessionFn st c).1.nextId, true, ?_, ?_, ?_⟩
        · exact lookupS_setS_self _ _ _
        · exact List.mem_append.mpr (Or.inr (by simp))
        · intro j hj
          have : j = (stopQuizSessionFn st c).1.nextId := Option.some.inj hj.symm
          omega
      have hdc : dispatchCount (startQuizSessionFn st c qs count true).2 = 1 := by
        rw [startQuizSession_eq_multi htake hm, dispatchCount_append,
          dispatchCount_stop]
        rfl
      obtain ⟨ha, hb⟩ := run_after_start c _ (q0 :: rest) _ _ hwf1 hsl hone hdc k
      rw [hlen] at ha hb
      exact ⟨ha, hb⟩
    · refine ⟨(stopQuizSessionFn st c).1.nextId, fun k => ?_⟩
      have hsl : SessionLive (startQuizSessionFn st c qs count true).1 c
          (stopQuizSessionFn st c).1.nextId (q0 :: rest) 1 := by
        rw [startQuizSession_eq_single htake hm]
        refine ⟨none, false, ?_, ?_, ?_⟩
        · exact lookupS_setS_self _ _ _
        · exact List.mem_append.mpr (Or.inr (by simp))
        · intro j hj
          exact absurd hj (by simp)
      have hdc : dispatchCount (startQuizSessionFn st c qs count true).2 = 1 := by
        rw [startQuizSession_eq_single htake hm, dispatchCount_append,
          dispatchCount_stop]
        rfl
      obtain ⟨ha, hb⟩ := run_after_start c _ (q0 :: rest) _ _ hwf1 hsl hone hdc k
      rw [hlen] at ha hb
      exact ⟨ha, hb⟩

/-- A concrete catalog question used for witnesses. -/
def sampleQuestion : Question :=
  ⟨str "q", str "a", str "b", str "c", str "d", str "A", none, none⟩

/-- C2 witness: a fresh session on two questions. -/
theorem quiz_session_dispatches_exactly_N_witness :
    ∃ i, ∀ k,
      dispatchCount ((startQuizSessionFn initState 0
          [sampleQuestion, sampleQuestion] 2 true).2 ++
        (runTicks 0 i k (startQuizSessionFn initState 0
          [sampleQuestion, sampleQuestion] 2 true).1).2) =
        min (k + 1) (min 2 [sampleQuestion, sampleQuestion].length) ∧
      (min 2 [sampleQuestion, sampleQuestion].length ≤ k →
        lookupS (runTicks 0 i k (startQuizSessionFn initState 0
          [sampleQuestion, sampleQuestion] 2 true).1).1.sessions 0 = none ∧
        (∀ t ∈ (runTicks 0 i k (startQuizSessionFn initState 0
          [sampleQuestion, sampleQuestion] 2 true).1).1.live, t.chat ≠ 0) ∧
        Ev.repliedCompleted ∈ (runTicks 0 i k (startQuizSessionFn initState 0
          [sampleQuestion, sampleQuestion] 2 true).1).2) :=
  quiz_session_dispatches_exactly_N initState SchedReachable.init 0
    [sampleQuestion, sampleQuestion] 2 (by decide)

theorem length_le_one_of_same_id :
    ∀ (l : List Timer), (l.map Timer.id).Nodup →
      (∀ a ∈ l, ∀ b ∈ l, a.id = b.id) → l.length ≤ 1
  | [], _, _ => by simp
  | [_], _, _ => by simp
  | a :: b :: t, hn, hs => by
    exfalso
    have hmem : b.id ∈ (b :: t).map Timer.id :=
      List.mem_map_of_mem Timer.id (List.mem_cons_self b t)
    have hne : a.id ∉ (b :: t).map Timer.id := (List.nodup_cons.mp hn).1
    have heq : a.id = b.id := hs a (by simp) b (by simp)
    exact hne (heq ▸ hmem)

/-- C1: in every reachable state each chat has at most one registered
session and at most one armed cadence (dispatch) timer; and starting on
a chat with an existing session disarms that session's cadence and
countdown timers, so a fire of the old cadence handle after the new
session begins is a no-op that dispatches nothing. -/
theorem at_most_one_session_per_chat (st : BotState) (h : SchedReachable st) :
    (∀ c, (st.sessions.filter fun e => e.1 == c).length ≤ 1) ∧
    (∀ c, (st.live.filter fun t =>
      t.chat == c && t.kind == TimerKind.dispatch).length ≤ 1) ∧
    (∀ c s qs count sendOk, lookupS st.sessions c = some s →
      (∀ i, s.questionIntervalId = some i →
        (⟨i, c, .dispatch⟩ : Timer) ∉
          (startQuizSessionFn st c qs count sendOk).1.live ∧
        (∀ sendOk', questionTickFn
          (startQuizSessionFn st c qs count sendOk).1 c i sendOk' =
          ((startQuizSessionFn st c qs count sendOk).1, []))) ∧
      (∀ j, s.timerIntervalId = some j →
        (⟨j, c, .countdown⟩ : Timer) ∉
          (startQuizSessionFn st c qs count sendOk).1.live)) := by
  have hwf := WF_of_reachable h
  refine ⟨hwf.atMostOne, ?_, ?_⟩
  · intro c
    set l := st.live.filter fun t => t.chat == c && t.kind == TimerKind.dispatch
      with hl
    have hsubl : l.Sublist st.live := List.filter_sublist st.live
    refine length_le_one_of_same_id l ((hsubl.map Timer.id).nodup hwf.nodupIds) ?_
    intro a ha b hb
    have hpa := (List.mem_filter.mp ha).2
    have hpb := (List.mem_filter.mp hb).2
    simp only [Bool.and_eq_true, beq_iff_eq] at hpa hpb
    rcases hwf.owned a (hsubl.mem ha) with ⟨sa, hsa, hda, _⟩
    rcases hwf.owned b (hsubl.mem hb) with ⟨sb, hsb, hdb, _⟩
    rw [hpa.1] at hsa
    rw [hpb.1] at hsb
    have hsab : sa = sb := by
      rw [hsa] at hsb
      exact Option.some.inj hsb
    have h1 := hda hpa.2
    have h2 := hdb hpb.2
    rw [hsab, h2] at h1
    exact Option.some.inj h1.symm
  · intro c s qs count sendOk hl
    have hsmem := lookupS_some_mem hl
    have hfresh := (WF_of_reachable h).freshSession _ hsmem
    obtain ⟨_, hfreshc⟩ := startQuizSession_spec st c qs count sendOk hwf
    constructor
    · intro i hi
      have hlt : i < st.nextId := hfresh.1 i hi
      have hnm : (⟨i, c, .dispatch⟩ : Timer) ∉
          (startQuizSessionFn st c qs count sendOk).1.live := by
        intro hmem
        have := hfreshc _ hmem rfl
        dsimp only at this
        omega
      exact ⟨hnm, fun sendOk' => questionTick_eq_stale hnm⟩
    · intro j hj
      have hlt : j < st.nextId := hfresh.2 j hj
      intro hmem
      have := hfreshc _ hmem rfl
      dsimp only at this
      omega

/-- C1 witness: the initial state. -/
theorem at_most_one_session_per_chat_witness :
    (∀ c, (initState.sessions.filter fun e => e.1 == c).length ≤ 1) ∧
    (∀ c, (initState.live.filter fun t =>
      t.chat == c && t.kind == TimerKind.dispatch).length ≤ 1) ∧
    (∀ c s qs count sendOk, lookupS initState.sessions c = some s →
      (∀ i, s.questionIntervalId = some i →
        (⟨i, c, .dispatch⟩ : Timer) ∉
          (startQuizSessionFn initState c qs count sendOk).1.live ∧
        (∀ sendOk', questionTickFn
          (startQuizSessionFn initState c qs count sendOk).1 c i sendOk' =
          ((startQuizSessionFn initState c qs count sendOk).1, []))) ∧
      (∀ j, s.timerIntervalId = some j →
        (⟨j, c, .countdown⟩ : Timer) ∉
          (startQuizSessionFn initState c qs count sendOk).1.live)) :=
  at_most_one_session_per_chat initState SchedReachable.init

/-- C6: stopping a chat with no registered session is a no-op that
reports there is nothing to stop; the scheduler state — the session
table included — is returned unchanged (the handler is a total
function, so it never throws). -/
theorem stop_without_session_noop (st : BotState) (c : ChatId)
    (h : lookupS st.sessions c = none) :
    stopCommandFn st c = (st, [Ev.repliedNothingToStop]) ∧
    (∀ c', lookupS (stopCommandFn st c).1.sessions c' = lookupS st.sessions c') := by
  have heq : stopCommandFn st c = (st, [Ev.repliedNothingToStop]) := by
    rw [stopCommandFn, h]
    rfl
  exact ⟨heq, fun c' => by rw [heq]⟩

/-- C6 witness. -/
theorem stop_without_session_noop_witness :
    stopCommandFn initState 0 = (initState, [Ev.repliedNothingToStop]) ∧
    (∀ c', lookupS (stopCommandFn initState 0).1.sessions c' =
      lookupS initState.sessions c') :=
  stop_without_session_noop initState 0 (by decide)

/-- C5: when dispatching a question fails, the owning session is
stopped safely: after a failing cadence fire (and likewise after a
failing first dispatch during start) the chat is deregistered, no timer
of the chat stays armed — no dangling timer — and the chat is notified
of the failure. -/
theorem dispatch_failure_stops_session (st : BotState) (h : SchedReachable st)
    (c : ChatId) :
    (∀ i s, (⟨i, c, .dispatch⟩ : Timer) ∈ st.live →
      lookupS st.sessions c = some s →
      ¬ s.questions.length ≤ s.currentIndex →
      lookupS (questionTickFn st c i false).1.sessions c = none ∧
      (∀ t ∈ (questionTickFn st c i false).1.live, t.chat ≠ c) ∧
      (questionTickFn st c i false).2 =
        [Ev.repliedSendFailed, Ev.repliedQuizStopped]) ∧
    (∀ qs count q0 rest, qs.take (min count qs.length) = q0 :: rest →
      lookupS (startQuizSessionFn st c qs count false).1.sessions c = none ∧
      (∀ t ∈ (startQuizSessionFn st c qs count false).1.live, t.chat ≠ c) ∧
      (startQuizSessionFn st c qs count false).2 =
        (stopQuizSessionFn st c).2 ++ [Ev.repliedSendFailed]) := by
  have hwf := WF_of_reachable h
  constructor
  · intro i s hmem hl hlt
    rw [questionTick_eq_fail hmem hl hlt]
    have hmid : WF ⟨setS st.sessions c (stopTimerFn st.live s).2,
        (stopTimerFn st.live s).1, st.nextId⟩ :=
      WF_clear_countdown_set st c s _ hwf hl rfl rfl
    obtain ⟨_, hnone, _, hchat, _, _⟩ := stopQuizSession_spec _ c hmid
    refine ⟨hnone, hchat, ?_⟩
    rw [stopQuizSession_events_of_some (lookupS_setS_self _ _ _)]
    rfl
  · intro qs count q0 rest htake
    rw [startQuizSession_eq_fail htake]
    obtain ⟨_, hnone, _, hchat, _, _⟩ := stopQuizSession_spec st c hwf
    exact ⟨hnone, hchat, rfl⟩

/-- C5 witness: a failing second dispatch on a freshly started
two-question session. -/
theorem dispatch_failure_stops_session_witness :
    lookupS (questionTickFn (startQuizSessionFn initState 0
        [sampleQuestion, sampleQuestion] 2 true).1 0 1 false).1.sessions 0 = none ∧
    (∀ t ∈ (questionTickFn (startQuizSessionFn initState 0
        [sampleQuestion, sampleQuestion] 2 true).1 0 1 false).1.live, t.chat ≠ 0) ∧
    (questionTickFn (startQuizSessionFn initState 0
        [sampleQuestion, sampleQuestion] 2 true).1 0 1 false).2 =
      [Ev.repliedSendFailed, Ev.repliedQuizStopped] :=
  (dispatch_failure_stops_session
    (startQuizSessionFn initState 0 [sampleQuestion, sampleQuestion] 2 true).1
    (SchedReachable.step SchedReachable.init
      (SchedStep.start initState 0 [sampleQuestion, sampleQuestion] 2 true))
    0).1 1 ⟨some 1, some 0, true, [sampleQuestion, sampleQuestion], 1⟩
    (by decide) (by decide) (by decide)

/-!
## Auto-quiz reconciliation

Model of `setupAutoQuiz` / `clearAutoQuiz` and the
`initializeAutoQuizzes` snapshot handler of `src/text/quizes.ts`.
`quizIntervals` is the module-level record mapping a chat to its armed
auto-quiz interval handle; armed interval timers are explicit, as in
the session model.  A snapshot entry carries a chat's `quizInterval`
in minutes, `0` encoding a missing or falsy value.
-/

structure AutoTimer where
  id : ℕ
  chat : ChatId
deriving DecidableEq

structure AutoState where
  quizIntervals : List (ChatId × ℕ)
  live : List AutoTimer
  nextId : ℕ
deriving DecidableEq

def autoInit : AutoState := ⟨[], [], 0⟩

/-- Source: `setupAutoQuiz(bot, chatId, intervalMinutes)`: clear and delete any
existing interval of the chat, then arm a fresh repeating interval and
record its handle. -/
def setupAutoQuizFn (st : AutoState) (c : ChatId) : AutoState :=
  let st1 : AutoState :=
    match lookupS st.quizIntervals c with
    | some i => ⟨eraseS st.quizIntervals c,
        st.live.filter fun t => !(t.id == i), st.nextId⟩
    | none => st
  ⟨setS st1.quizIntervals c st1.nextId, st1.live ++ [⟨st1.nextId, c⟩],
   st1.nextId + 1⟩

/-- Source: `clearAutoQuiz(chatId)`: clear and delete the chat's interval when
present.  Called only by the privileged `/removequiztime` handler, not
by reconciliation. -/
def clearAutoQuizFn (st : AutoState) (c : ChatId) : AutoState :=
  match lookupS st.quizIntervals c with
  | some i => ⟨eraseS st.quizIntervals c,
      st.live.filter fun t => !(t.id == i), st.nextId⟩
  | none => st

/-- One pass of the `initializeAutoQuizzes` `onValue` handler over a
full snapshot: for each chat of the snapshot with a truthy
`quizInterval`, call `setupAutoQuiz`.  Chats not present in the
snapshot are not visited. -/
def reconcileFn (st : AutoState) (snapshot : List (ChatId × ℕ)) : AutoState :=
  snapshot.foldl (fun acc e => if e.2 ≠ 0 then setupAutoQuizFn acc e.1 else acc) st

/-- Well-formedness of the auto-quiz state: armed handles are distinct
and fresh, every armed timer is recorded for its chat, and every record
entry has its armed timer. -/
structure AutoWF (st : AutoState) : Prop where
  nodupIds : (st.live.map AutoTimer.id).Nodup
  freshLive : ∀ t ∈ st.live, t.id < st.nextId
  owned : ∀ t ∈ st.live, lookupS st.quizIntervals t.chat = some t.id
  mapLive : ∀ e ∈ st.quizIntervals, (⟨e.2, e.1⟩ : AutoTimer) ∈ st.live

theorem auto_nodup_append_one (live : List AutoTimer) (t : AutoTimer)
    (hn : (live.map AutoTimer.id).Nodup) (h1 : ∀ u ∈ live, u.id < t.id) :
    ((live ++ [t]).map AutoTimer.id).Nodup := by
  rw [List.map_append]
  refine List.Nodup.append hn (List.nodup_singleton _) ?_
  intro a ha hb
  rcases List.mem_map.mp ha with ⟨u, hu, hua⟩
  have hb' : a = t.id := by simpa using hb
  have := h1 u hu
  omega

theorem filter_filter_of_imp {α : Type} {p q : α → Bool} {l : List α}
    (h : ∀ a ∈ l, p a = true → q a = true) :
    (l.filter q).filter p = l.filter p := by
  induction l with
  | nil => rfl
  | cons x xs ih =>
    have ih' := ih fun a ha hp => h a (List.mem_cons_of_mem x ha) hp
    by_cases hp : p x = true
    · have hq := h x (List.mem_cons_self x xs) hp
      rw [List.filter_cons, if_pos hq, List.filter_cons, if_pos hp,
        List.filter_cons, if_pos hp, ih']
    · by_cases hq : q x = true
      · rw [List.filter_cons, if_pos hq, List.filter_cons, if_neg hp,
          List.filter_cons, if_neg hp, ih']
      · rw [List.filter_cons, if_neg hq, List.filter_cons, if_neg hp, ih']

/-- In a well-formed auto-quiz state, the armed timer with the handle
recorded for chat `c` is `c`'s timer. -/
theorem auto_id_unique {st : AutoState} {c : ChatId} {i : ℕ} (hwf : AutoWF st)
    (hl : lookupS st.quizIntervals c = some i) :
    ∀ t ∈ st.live, t.id = i → t = ⟨i, c⟩ := by
  intro t ht hid
  have h1 : (⟨i, c⟩ : AutoTimer) ∈ st.live := hwf.mapLive (c, i) (lookupS_some_mem hl)
  exact List.inj_on_of_nodup_map hwf.nodupIds ht h1 (by simpa using hid)

/-- Lemma: `setupAutoQuizFn` specification: well-formedness is preserved, the
chat ends with exactly its fresh timer, and other chats' timers are
untouched. -/
theorem setupAutoQuiz_spec (st : AutoState) (c : ChatId) (hwf : AutoWF st) :
    AutoWF (setupAutoQuizFn st c) ∧
    ((setupAutoQuizFn st c).live.filter fun t => t.chat == c) =
      [⟨st.nextId, c⟩] ∧
    (∀ c', c' ≠ c →
      ((setupAutoQuizFn st c).live.filter fun t => t.chat == c') =
        st.live.filter fun t => t.chat == c') ∧
    (setupAutoQuizFn st c).nextId = st.nextId + 1 := by
  cases hl : lookupS st.quizIntervals c with
  | none =>
    have hnoc : ∀ t ∈ st.live, t.chat ≠ c := by
      intro t ht hc
      have := hwf.owned t ht
      rw [hc, hl] at this
      exact Option.noConfusion this
    have hfe : (st.live.filter fun t => t.chat == c) = [] := by
      rw [List.filter_eq_nil_iff]
      intro t ht
      simp [hnoc t ht]
    simp only [setupAutoQuizFn, hl]
    refine ⟨⟨?_, ?_, ?_, ?_⟩, ?_, ?_, trivial⟩
    · exact auto_nodup_append_one _ _ hwf.nodupIds fun u hu => hwf.freshLive u hu
    · intro t ht
      rcases List.mem_append.mp ht with h | h
      · have := hwf.freshLive t h
        try dsimp only
        omega
      · have ht' : t = ⟨st.nextId, c⟩ := by simpa using h
        rw [ht']
        try dsimp only
        try dsimp only
        omega
    · intro t ht
      rcases List.mem_append.mp ht with h | h
      · rw [lookupS_setS_ne _ _ (hnoc t h)]
        exact hwf.owned t h
      · have ht' : t = ⟨st.nextId, c⟩ := by simpa using h
        subst ht'
        exact lookupS_setS_self _ _ _
    · intro e he
      rcases List.mem_append.mp he with h | h
      · exact List.mem_append.mpr (Or.inl (hwf.mapLive e (mem_eraseS.mp h).1))
      · have he' : e = (c, st.nextId) := by simpa using h
        subst he'
        exact List.mem_append.mpr (Or.inr (by simp))
    · rw [List.filter_append, hfe]
      simp
    · intro c' hc'
      rw [List.filter_append]
      have h2 : (([⟨st.nextId, c⟩] : List AutoTimer).filter
          fun t => t.chat == c') = [] := by
        simp [show ¬ c = c' from fun hh => hc' hh.symm]
      rw [h2, List.append_nil]
  | some i =>
    have hkill := auto_id_unique hwf hl
    have hnoc : ∀ t ∈ st.live.filter (fun t => !(t.id == i)), t.chat ≠ c := by
      intro t ht hc
      have hm := List.mem_filter.mp ht
      have hid : t.id ≠ i := by simpa using hm.2
      have := hwf.owned t hm.1
      rw [hc, hl] at this
      exact hid (Option.some.inj this).symm
    have hfe : ((st.live.filter fun t => !(t.id == i)).filter
        fun t => t.chat == c) = [] := by
      rw [List.filter_eq_nil_iff]
      intro t ht
      simp [hnoc t ht]
    simp only [setupAutoQuizFn, hl]
    refine ⟨⟨?_, ?_, ?_, ?_⟩, ?_, ?_, trivial⟩
    · refine auto_nodup_append_one _ _
        (((List.filter_sublist st.live).map AutoTimer.id).nodup hwf.nodupIds) ?_
      intro u hu
      exact hwf.freshLive u ((List.filter_sublist st.live).mem hu)
    · intro t ht
      rcases List.mem_append.mp ht with h | h
      · have := hwf.freshLive t ((List.filter_sublist st.live).mem h)
        try dsimp only
        omega
      · have ht' : t = ⟨st.nextId, c⟩ := by simpa using h
        rw [ht']
        try dsimp only
        try dsimp only
        omega
    · intro t ht
      rcases List.mem_append.mp ht with h | h
      · rw [lookupS_setS_ne _ _ (hnoc t h), lookupS_eraseS_ne _ (hnoc t h)]
        exact hwf.owned t ((List.filter_sublist st.live).mem h)
      · have ht' : t = ⟨st.nextId, c⟩ := by simpa using h
        subst ht'
        exact lookupS_setS_self _ _ _
    · intro e he
      rcases List.mem_append.mp he with h | h
      · have hme := mem_eraseS.mp h
        have hm2 := mem_eraseS.mp hme.1
        have hte : (⟨e.2, e.1⟩ : AutoTimer) ∈ st.live := hwf.mapLive e hm2.1
        have hne : e.2 ≠ i := by
          intro he2
          have := hkill ⟨e.2, e.1⟩ hte (by simpa using he2)
          have : e.1 = c := by
            have h3 := congrArg AutoTimer.chat this
            simpa using h3
          exact hm2.2 this
        refine List.mem_append.mpr (Or.inl ?_)
        refine List.mem_filter.mpr ⟨hte, ?_⟩
        simpa using hne
      · have he' : e = (c, st.nextId) := by simpa using h
        subst he'
        exact List.mem_append.mpr (Or.inr (by simp))
    · rw [List.filter_append, hfe]
      simp
    · intro c' hc'
      rw [List.filter_append]
      have h2 : (([⟨st.nextId, c⟩] : List AutoTimer).filter
          fun t => t.chat == c') = [] := by
        simp [show ¬ c = c' from fun hh => hc' hh.symm]
      rw [h2, List.append_nil]
      refine filter_filter_of_imp ?_
      intro t ht hpc
      have hc'2 : t.chat = c' := by simpa using hpc
      have : t.id ≠ i := by
        intro hid
        have := hkill t ht hid
        have h3 := congrArg AutoTimer.chat this
        rw [hc'2] at h3
        exact hc' (by simpa using h3)
      simpa using this

theorem reconcileFn_cons (st : AutoState) (e : ChatId × ℕ)
    (es : List (ChatId × ℕ)) :
    reconcileFn st (e :: es) =
      reconcileFn (if e.2 ≠ 0 then setupAutoQuizFn st e.1 else st) es :=
  rfl

theorem reconcile_AutoWF : ∀ (snap : List (ChatId × ℕ)) (st : AutoState),
    AutoWF st → AutoWF (reconcileFn st snap) := by
  intro snap
  induction snap with
  | nil => exact fun st h => h
  | cons e es ih =>
    intro st hwf
    rw [reconcileFn_cons]
    by_cases he : e.2 ≠ 0
    · rw [if_pos he]
      exact ih _ (setupAutoQuiz_spec st e.1 hwf).1
    · rw [if_neg he]
      exact ih _ hwf

theorem reconcile_untouched : ∀ (snap : List (ChatId × ℕ)) (st : AutoState)
    (c : ChatId), AutoWF st → (∀ e ∈ snap, e.1 ≠ c ∨ e.2 = 0) →
    ((reconcileFn st snap).live.filter fun t => t.chat == c) =
      st.live.filter fun t => t.chat == c := by
  intro snap
  induction snap with
  | nil => exact fun st c _ _ => rfl
  | cons e es ih =>
    intro st c hwf hsnap
    rw [reconcileFn_cons]
    by_cases he : e.2 ≠ 0
    · rw [if_pos he]
      have hne : e.1 ≠ c := by
        rcases hsnap e (List.mem_cons_self e es) with h | h
        · exact h
        · exact absurd h he
      rw [ih _ c (setupAutoQuiz_spec st e.1 hwf).1
        (fun a ha => hsnap a (List.mem_cons_of_mem e ha))]
      exact (setupAutoQuiz_spec st e.1 hwf).2.2.1 c fun hh => hne hh.symm
    · rw [if_neg he]
      exact ih _ c hwf fun a ha => hsnap a (List.mem_cons_of_mem e ha)

theorem reconcile_keeps_one : ∀ (snap : List (ChatId × ℕ)) (st : AutoState)
    (c : ChatId), AutoWF st →
    ((st.live.filter fun t => t.chat == c).length = 1) →
    ((reconcileFn st snap).live.filter fun t => t.chat == c).length = 1 := by
  intro snap
  induction snap with
  | nil => exact fun st c _ h => h
  | cons e es ih =>
    intro st c hwf hone
    rw [reconcileFn_cons]
    by_cases he : e.2 ≠ 0
    · rw [if_pos he]
      obtain ⟨hwf', hself, hother, _⟩ := setupAutoQuiz_spec st e.1 hwf
      by_cases hc : e.1 = c
      · subst hc
        refine ih _ e.1 hwf' ?_
        rw [hself]
        rfl
      · refine ih _ c hwf' ?_
        rw [hother c fun hh => hc hh.symm]
        exact hone
    · rw [if_neg he]
      exact ih _ c hwf hone

theorem reconcile_present : ∀ (snap : List (ChatId × ℕ)) (st : AutoState),
    AutoWF st → ∀ e ∈ snap, e.2 ≠ 0 →
    ((reconcileFn st snap).live.filter fun t => t.chat == e.1).length = 1 := by
  intro snap
  induction snap with
  | nil => exact fun st _ e he => absurd he (by simp)
  | cons a as ih =>
    intro st hwf e he hne
    rw [reconcileFn_cons]
    rcases List.mem_cons.mp he with h | h
    · subst h
      rw [if_pos hne]
      obtain ⟨hwf', hself, _, _⟩ := setupAutoQuiz_spec st e.1 hwf
      refine reconcile_keeps_one as _ e.1 hwf' ?_
      rw [hself]
      rfl
    · by_cases ha : a.2 ≠ 0
      · rw [if_pos ha]
        exact ih _ (setupAutoQuiz_spec st a.1 hwf).1 e h hne
      · rw [if_neg ha]
        exact ih _ hwf e h hne

theorem auto_length_le_one_of_same_id :
    ∀ (l : List AutoTimer), (l.map AutoTimer.id).Nodup →
      (∀ a ∈ l, ∀ b ∈ l, a.id = b.id) → l.length ≤ 1
  | [], _, _ => by simp
  | [_], _, _ => by simp
  | a :: b :: t, hn, hs => by
    exfalso
    have hmem : b.id ∈ (b :: t).map AutoTimer.id :=
      List.mem_map_of_mem AutoTimer.id (List.mem_cons_self b t)
    have hne : a.id ∉ (b :: t).map AutoTimer.id := (List.nodup_cons.mp hn).1
    have heq : a.id = b.id := hs a (by simp) b (by simp)
    exact hne (heq ▸ hmem)

/-- In a well-formed auto-quiz state every chat has at most one armed
timer. -/
theorem auto_atMostOne (st : AutoState) (hwf : AutoWF st) (c : ChatId) :
    ((st.live.filter fun t => t.chat == c).length) ≤ 1 := by
  refine auto_length_le_one_of_same_id _
    (((List.filter_sublist st.live).map AutoTimer.id).nodup hwf.nodupIds) ?_
  intro a ha b hb
  have hma := List.mem_filter.mp ha
  have hmb := List.mem_filter.mp hb
  have hca : a.chat = c := by simpa using hma.2
  have hcb : b.chat = c := by simpa using hmb.2
  have h1 := hwf.owned a hma.1
  have h2 := hwf.owned b hmb.1
  rw [hca] at h1
  rw [hcb] at h2
  rw [h1] at h2
  exact Option.some.inj h2

/-- C3 counterexample: chat `2` sets up an auto quiz; a later snapshot
contains only chat `1`.  One reconciliation pass arms chat `1` but does
NOT clear chat `2`'s live timer — the handler never stops chats absent
from the snapshot, contradicting the claim that such chats end with no
timer. -/
theorem reconcile_absent_chat_counterexample :
    ((reconcileFn (setupAutoQuizFn autoInit 2) [(1, 5)]).live.filter
        fun t => t.chat == 1).length = 1 ∧
    ((reconcileFn (setupAutoQuizFn autoInit 2) [(1, 5)]).live.filter
        fun t => t.chat == 2).length = 1 ∧
    ¬ (((reconcileFn (setupAutoQuizFn autoInit 2) [(1, 5)]).live.filter
        fun t => t.chat == 2).length = 0) := by
  refine ⟨by decide, by decide, ?_⟩
  intro h
  exact absurd h (by decide)

/-- C3 (amended): one reconciliation pass over a snapshot leaves every
chat present in it (with a non-zero quiz interval) with exactly one
live auto-quiz timer; chats absent from the snapshot keep their
previous timers unchanged (reconciliation never stops them — removal
happens only through the explicit remove command); no chat ever holds
duplicate timers, and a second pass over the unchanged snapshot leaves
every snapshot chat with exactly one timer — no duplicates. -/
theorem reconcile_spec (st : AutoState) (snap : List (ChatId × ℕ))
    (hwf : AutoWF st) :
    AutoWF (reconcileFn st snap) ∧
    (∀ e ∈ snap, e.2 ≠ 0 →
      ((reconcileFn st snap).live.filter fun t => t.chat == e.1).length = 1) ∧
    (∀ c, (∀ e ∈ snap, e.1 ≠ c ∨ e.2 = 0) →
      ((reconcileFn st snap).live.filter fun t => t.chat == c) =
        st.live.filter fun t => t.chat == c) ∧
    (∀ c, ((reconcileFn st snap).live.filter fun t => t.chat == c).length ≤ 1) ∧
    (∀ e ∈ snap, e.2 ≠ 0 →
      ((reconcileFn (reconcileFn st snap) snap).live.filter
        fun t => t.chat == e.1).length = 1) := by
  have hwf' := reconcile_AutoWF snap st hwf
  refine ⟨hwf', ?_, ?_, ?_, ?_⟩
  · exact fun e he hne => reconcile_present snap st hwf e he hne
  · exact fun c hc => reconcile_untouched snap st c hwf hc
  · exact fun c => auto_atMostOne _ hwf' c
  · exact fun e he hne => reconcile_present snap _ hwf' e he hne

/-- C3 witness: the empty auto-quiz state and a one-chat snapshot. -/
theorem reconcile_spec_witness :
    AutoWF (reconcileFn autoInit [(1, 5)]) ∧
    (∀ e ∈ [((1 : ChatId), (5 : ℕ))], e.2 ≠ 0 →
      ((reconcileFn autoInit [(1, 5)]).live.filter
        fun t => t.chat == e.1).length = 1) ∧
    (∀ c, (∀ e ∈ [((1 : ChatId), (5 : ℕ))], e.1 ≠ c ∨ e.2 = 0) →
      ((reconcileFn autoInit [(1, 5)]).live.filter fun t => t.chat == c) =
        autoInit.live.filter fun t => t.chat == c) ∧
    (∀ c, ((reconcileFn autoInit [(1, 5)]).live.filter
      fun t => t.chat == c).length ≤ 1) ∧
    (∀ e ∈ [((1 : ChatId), (5 : ℕ))], e.2 ≠ 0 →
      ((reconcileFn (reconcileFn autoInit [(1, 5)]) [(1, 5)]).live.filter
        fun t => t.chat == e.1).length = 1) :=
  reconcile_spec autoInit [(1, 5)]
    ⟨by simp [autoInit], by simp [autoInit], by simp [autoInit], by simp [autoInit]⟩

/-!
## Countdown display

Model of the closure inside `startTimer`: the captured `secondsLeft`
counter, the armed one-second interval, and the tracked status message
with its displayed text.  `editOk` is the outcome of the
`editMessageText` call of a tick.
-/

inductive CdMsg
  | nextIn (n : ℤ)
  | sending
deriving DecidableEq

structure Countdown where
  secondsLeft : ℤ
  intervalLive : Bool
  message : Option CdMsg
deriving DecidableEq

/-- The state right after `startTimer` has sent the status message
(`Next question in 30s`) and armed the one-second interval. -/
def startCountdown : Countdown := ⟨30, true, some (.nextIn 30)⟩

/-- One fire of the countdown interval.  The counter is decremented;
at zero or below the message is rewritten to the terminal
`Sending next question...` text (an edit failure is swallowed) and the
callback returns WITHOUT clearing the interval — the comment in the
source says the interval is cleared elsewhere; above zero the displayed
text is updated in place, and an edit failure clears the interval and
drops the message handle.  A cleared interval never fires. -/
def countdownTick (cdn : Countdown) (editOk : Bool) : Countdown :=
  if cdn.intervalLive = false then cdn
  else
    if cdn.secondsLeft - 1 ≤ 0 then
      { cdn with
        secondsLeft := cdn.secondsLeft - 1
        message := if editOk then some .sending else cdn.message }
    else if editOk then
      { cdn with
        secondsLeft := cdn.secondsLeft - 1
        message := some (.nextIn (cdn.secondsLeft - 1)) }
    else
      ⟨cdn.secondsLeft - 1, false, none⟩

/-- C4 counterexample: the countdown does NOT stop ticking when the
remaining value falls below zero.  From the start state, thirty ticks
reach zero, the next tick takes the counter to `-1` with the interval
still armed, and a further tick still fires (decrementing to `-2`) —
refuting that no further tick fires once the value is below zero. -/
theorem countdown_keeps_ticking_counterexample :
    (fun cdn => countdownTick cdn true)^[31] startCountdown =
      ⟨-1, true, some .sending⟩ ∧
    (countdownTick ⟨-1, true, some .sending⟩ true).secondsLeft = -2 ∧
    (countdownTick ⟨-1, true, some .sending⟩ true).intervalLive = true ∧
    ¬ (∀ cdn : Countdown, cdn.intervalLive = true →
        (countdownTick cdn true).secondsLeft < 0 →
        (countdownTick cdn true).intervalLive = false) := by
  refine ⟨by decide, by decide, by decide, ?_⟩
  intro h
  exact absurd (h ⟨-1, true, some .sending⟩ rfl (by decide)) (by decide)

/-- C4 (amended): every fire of a live countdown decrements the
remaining value by one.  When the new value is zero or below, the tick
leaves the interval armed (it is cleared externally by the session's
`startTimer`/`stopTimer`) and, when the edit succeeds, rewrites the
message to the terminal text, leaving it unchanged when the edit fails;
when the new value is above zero a successful tick updates the
displayed text in place, and a failed edit clears the interval and
drops the message handle.  A cleared interval never fires. -/
theorem countdownTick_spec (cdn : Countdown) (editOk : Bool)
    (hlive : cdn.intervalLive = true) :
    (countdownTick cdn editOk).secondsLeft = cdn.secondsLeft - 1 ∧
    (cdn.secondsLeft - 1 ≤ 0 →
      (countdownTick cdn editOk).intervalLive = true ∧
      (editOk = true → (countdownTick cdn editOk).message = some .sending) ∧
      (editOk = false → (countdownTick cdn editOk).message = cdn.message)) ∧
    (0 < cdn.secondsLeft - 1 → editOk = true →
      (countdownTick cdn editOk).intervalLive = true ∧
      (countdownTick cdn editOk).message =
        some (.nextIn (cdn.secondsLeft - 1))) ∧
    (0 < cdn.secondsLeft - 1 → editOk = false →
      (countdownTick cdn editOk).intervalLive = false ∧
      (countdownTick cdn editOk).message = none) ∧
    (∀ c : Countdown, c.intervalLive = false → countdownTick c editOk = c) := by
  have hnf : ¬ cdn.intervalLive = false := by
    rw [hlive]
    simp
  rw [countdownTick, if_neg hnf]
  by_cases hz : cdn.secondsLeft - 1 ≤ 0
  · rw [if_pos hz]
    refine ⟨rfl, ?_, ?_, ?_, ?_⟩
    · intro _
      refine ⟨hlive, ?_, ?_⟩
      · intro he
        rw [he]
        rfl
      · intro he
        rw [he]
        rfl
    · intro hgt
      exact absurd hz (by omega)
    · intro hgt
      exact absurd hz (by omega)
    · intro c hc
      rw [countdownTick, if_pos hc]
  · rw [if_neg hz]
    cases editOk with
    | true =>
      rw [if_pos rfl]
      refine ⟨rfl, ?_, ?_, ?_, ?_⟩
      · intro hle
        exact absurd hle hz
      · intro _ _
        exact ⟨hlive, rfl⟩
      · intro _ hff
        exact absurd hff (by simp)
      · intro c hc
        rw [countdownTick, if_pos hc]
    | false =>
      rw [if_neg (by simp)]
      refine ⟨rfl, ?_, ?_, ?_, ?_⟩
      · intro hle
        exact absurd hle hz
      · intro _ htt
        exact absurd htt (by simp)
      · intro _ _
        exact ⟨rfl, rfl⟩
      · intro c hc
        rw [countdownTick, if_pos hc]

/-- C4 witness. -/
theorem countdownTick_spec_witness :
    (countdownTick ⟨5, true, some (.nextIn 5)⟩ true).secondsLeft = 5 - 1 ∧
    ((5 : ℤ) - 1 ≤ 0 →
      (countdownTick ⟨5, true, some (.nextIn 5)⟩ true).intervalLive = true ∧
      (true = true →
        (countdownTick ⟨5, true, some (.nextIn 5)⟩ true).message = some .sending) ∧
      (true = false →
        (countdownTick ⟨5, true, some (.nextIn 5)⟩ true).message =
          some (.nextIn 5))) ∧
    (0 < (5 : ℤ) - 1 → true = true →
      (countdownTick ⟨5, true, some (.nextIn 5)⟩ true).intervalLive = true ∧
      (countdownTick ⟨5, true, some (.nextIn 5)⟩ true).message =
        some (.nextIn (5 - 1))) ∧
    (0 < (5 : ℤ) - 1 → true = false →
      (countdownTick ⟨5, true, some (.nextIn 5)⟩ true).intervalLive = false ∧
      (countdownTick ⟨5, true, some (.nextIn 5)⟩ true).message = none) ∧
    (∀ c : Countdown, c.intervalLive = false → countdownTick c true = c) :=
  countdownTick_spec ⟨5, true, some (.nextIn 5)⟩ true rfl
